import Mathlib

/-!
Verification of the geometric core of `viperleed.tleedmlib.classes.slab`
(`base_slab.py`, `layer.py`, `slab_errors.py`) via a shallow embedding.

Conventions of the embedding:
* floating-point scalars are modelled by exact rationals (ℚ);
* numpy arrays of shape (3,), (2,), (3,3), (2,2) become the records
  `Vec3`, `Vec2`, `Mat3`, `Mat2` below;
* Python exceptions become an `Except PyError` result; functions that
  mutate `self` and can raise return `Except (PyError × State) State`
  when the state at raise time matters, otherwise `Except PyError State`;
* `x % 1.0` on a float becomes `Int.fract` on ℚ;
* comparisons of Euclidean norms against a tolerance `eps > 0` are
  encoded by comparing squared quantities (exact over ℚ).
-/

namespace VarLeed

/-- A 2-component vector (numpy shape (2,)), exact rationals. -/
structure Vec2 where
  x : ℚ
  y : ℚ
deriving DecidableEq, Repr

/-- A 3-component vector (numpy shape (3,)), exact rationals. -/
structure Vec3 where
  x : ℚ
  y : ℚ
  z : ℚ
deriving DecidableEq, Repr

/-- A 2×2 matrix (numpy shape (2,2)); entry `mij` sits at row i, column j. -/
structure Mat2 where
  m00 : ℚ
  m01 : ℚ
  m10 : ℚ
  m11 : ℚ
deriving DecidableEq, Repr

/-- A 3×3 matrix (numpy shape (3,3)); entry `mij` sits at row i, column j.
The slab unit cell stores the lattice vectors a, b, c as columns. -/
structure Mat3 where
  m00 : ℚ
  m01 : ℚ
  m02 : ℚ
  m10 : ℚ
  m11 : ℚ
  m12 : ℚ
  m20 : ℚ
  m21 : ℚ
  m22 : ℚ
deriving DecidableEq, Repr

namespace Vec2

/-- Componentwise sum of 2-vectors. -/
def add (v w : Vec2) : Vec2 := ⟨v.x + w.x, v.y + w.y⟩

/-- Componentwise difference of 2-vectors. -/
def sub (v w : Vec2) : Vec2 := ⟨v.x - w.x, v.y - w.y⟩

/-- Scalar multiple of a 2-vector. -/
def smul (q : ℚ) (v : Vec2) : Vec2 := ⟨q * v.x, q * v.y⟩

/-- Squared Euclidean norm of a 2-vector (‖v‖², exact). -/
def norm2 (v : Vec2) : ℚ := v.x ^ 2 + v.y ^ 2

/-- Squared Euclidean distance between two 2-vectors. -/
def dist2 (v w : Vec2) : ℚ := (v.x - w.x) ^ 2 + (v.y - w.y) ^ 2

end Vec2

namespace Vec3

/-- Componentwise sum of 3-vectors. -/
def add (v w : Vec3) : Vec3 := ⟨v.x + w.x, v.y + w.y, v.z + w.z⟩

/-- Componentwise difference of 3-vectors. -/
def sub (v w : Vec3) : Vec3 := ⟨v.x - w.x, v.y - w.y, v.z - w.z⟩

/-- Scalar multiple of a 3-vector. -/
def smul (q : ℚ) (v : Vec3) : Vec3 := ⟨q * v.x, q * v.y, q * v.z⟩

/-- Squared Euclidean norm of a 3-vector. -/
def norm2 (v : Vec3) : ℚ := v.x ^ 2 + v.y ^ 2 + v.z ^ 2

/-- Squared Euclidean distance between two 3-vectors. -/
def dist2 (v w : Vec3) : ℚ :=
  (v.x - w.x) ^ 2 + (v.y - w.y) ^ 2 + (v.z - w.z) ^ 2

/-- `np.mod(v, 1.0)`: componentwise fractional part (wrap into [0,1)). -/
def fract (v : Vec3) : Vec3 := ⟨Int.fract v.x, Int.fract v.y, Int.fract v.z⟩

/-- The componentwise fractional part is idempotent. -/
theorem fract_fract (v : Vec3) : v.fract.fract = v.fract := by
  simp [fract, Int.fract_fract]

end Vec3

namespace Mat2

/-- `M @ v` for a 2×2 matrix and a 2-vector. -/
def mulVec (m : Mat2) (v : Vec2) : Vec2 :=
  ⟨m.m00 * v.x + m.m01 * v.y, m.m10 * v.x + m.m11 * v.y⟩

/-- Determinant of a 2×2 matrix (`np.linalg.det`). -/
def det (m : Mat2) : ℚ := m.m00 * m.m11 - m.m01 * m.m10

/-- `np.linalg.inv` for a 2×2 matrix (the exact inverse; numpy raises
`LinAlgError` on a singular input, handled at call sites). -/
def inv (m : Mat2) : Mat2 :=
  ⟨m.m11 / m.det, -m.m01 / m.det, -m.m10 / m.det, m.m00 / m.det⟩

/-- Matrix product of 2×2 matrices. -/
def mul (m n : Mat2) : Mat2 :=
  ⟨m.m00 * n.m00 + m.m01 * n.m10, m.m00 * n.m01 + m.m01 * n.m11,
   m.m10 * n.m00 + m.m11 * n.m10, m.m10 * n.m01 + m.m11 * n.m11⟩

/-- Row 0 of a 2×2 matrix as a vector. -/
def row0 (m : Mat2) : Vec2 := ⟨m.m00, m.m01⟩

/-- Row 1 of a 2×2 matrix as a vector. -/
def row1 (m : Mat2) : Vec2 := ⟨m.m10, m.m11⟩

/-- Column 0 of a 2×2 matrix as a vector. -/
def col0 (m : Mat2) : Vec2 := ⟨m.m00, m.m10⟩

/-- Column 1 of a 2×2 matrix as a vector. -/
def col1 (m : Mat2) : Vec2 := ⟨m.m01, m.m11⟩

/-- Build a 2×2 matrix from its two rows. -/
def ofRows (r0 r1 : Vec2) : Mat2 := ⟨r0.x, r0.y, r1.x, r1.y⟩

end Mat2

namespace Mat3

/-- `M @ v` for a 3×3 matrix and a 3-vector. -/
def mulVec (m : Mat3) (v : Vec3) : Vec3 :=
  ⟨m.m00 * v.x + m.m01 * v.y + m.m02 * v.z,
   m.m10 * v.x + m.m11 * v.y + m.m12 * v.z,
   m.m20 * v.x + m.m21 * v.y + m.m22 * v.z⟩

/-- Determinant of a 3×3 matrix. -/
def det (m : Mat3) : ℚ :=
  m.m00 * (m.m11 * m.m22 - m.m12 * m.m21)
    - m.m01 * (m.m10 * m.m22 - m.m12 * m.m20)
    + m.m02 * (m.m10 * m.m21 - m.m11 * m.m20)

/-- `np.linalg.inv` for a 3×3 matrix, by the cofactor formula (exact;
numpy raises `LinAlgError` on singular input, handled at call sites). -/
def inv (m : Mat3) : Mat3 :=
  let d := m.det
  ⟨(m.m11 * m.m22 - m.m12 * m.m21) / d,
   (m.m02 * m.m21 - m.m01 * m.m22) / d,
   (m.m01 * m.m12 - m.m02 * m.m11) / d,
   (m.m12 * m.m20 - m.m10 * m.m22) / d,
   (m.m00 * m.m22 - m.m02 * m.m20) / d,
   (m.m02 * m.m10 - m.m00 * m.m12) / d,
   (m.m10 * m.m21 - m.m11 * m.m20) / d,
   (m.m01 * m.m20 - m.m00 * m.m21) / d,
   (m.m00 * m.m11 - m.m01 * m.m10) / d⟩

/-- Matrix product of 3×3 matrices. -/
def mul (m n : Mat3) : Mat3 :=
  ⟨m.m00 * n.m00 + m.m01 * n.m10 + m.m02 * n.m20,
   m.m00 * n.m01 + m.m01 * n.m11 + m.m02 * n.m21,
   m.m00 * n.m02 + m.m01 * n.m12 + m.m02 * n.m22,
   m.m10 * n.m00 + m.m11 * n.m10 + m.m12 * n.m20,
   m.m10 * n.m01 + m.m11 * n.m11 + m.m12 * n.m21,
   m.m10 * n.m02 + m.m11 * n.m12 + m.m12 * n.m22,
   m.m20 * n.m00 + m.m21 * n.m10 + m.m22 * n.m20,
   m.m20 * n.m01 + m.m21 * n.m11 + m.m22 * n.m21,
   m.m20 * n.m02 + m.m21 * n.m12 + m.m22 * n.m22⟩

/-- Transpose of a 3×3 matrix. -/
def transpose (m : Mat3) : Mat3 :=
  ⟨m.m00, m.m10, m.m20, m.m01, m.m11, m.m21, m.m02, m.m12, m.m22⟩

/-- The identity 3×3 matrix. -/
def one : Mat3 := ⟨1, 0, 0, 0, 1, 0, 0, 0, 1⟩

/-- The in-plane 2×2 block `ucell[:2, :2]` (columns a, b restricted to x,y). -/
def abBlock (m : Mat3) : Mat2 := ⟨m.m00, m.m01, m.m10, m.m11⟩

/-- Column 2 of a 3×3 matrix (the c lattice vector). -/
def colC (m : Mat3) : Vec3 := ⟨m.m02, m.m12, m.m22⟩

end Mat3

/-- The Python exceptions relevant to the embedded code. `slabError`
wraps the typed taxonomy of `slab_errors.py`; `layerHasNoAtoms` models
`LayerHasNoAtomsError` of `layer.py`; `linAlgError` models
`numpy.linalg.LinAlgError` (which numpy derives from `ValueError`). -/
inductive SlabErr where
  | alreadyMinimal
  | invalidUnitCell
  | missingLayers
  | missingSublayers
deriving DecidableEq, Repr

/-- Exception model: Python / numpy exception kinds raised by the
embedded functions. -/
inductive PyError where
  | valueError
  | typeError
  | indexError
  | linAlgError
  | layerHasNoAtoms
  | slabError : SlabErr → PyError
deriving DecidableEq, Repr

/-- Whether an exception would be caught by `except ValueError`:
true for `ValueError` itself and for `numpy.linalg.LinAlgError`,
which numpy documents as derived from Python's `ValueError`. -/
def PyError.isValueError : PyError → Bool
  | .valueError => true
  | .linAlgError => true
  | _ => false

/-- Whether an exception belongs to the slab error taxonomy of
`slab_errors.py` (subclasses of `SlabError`). -/
def PyError.isSlabError : PyError → Bool
  | .slabError _ => true
  | _ => false

/-- An atom record: element label, original (POSCAR) number, fractional
position `pos`, Cartesian position `cartpos` (`Atom` of the repository;
the class itself is outside `src/`, but only these four attributes are
used by the embedded slab code). -/
structure Atom where
  el : String
  oriN : ℕ
  pos : Vec3
  cartpos : Vec3
deriving DecidableEq, Repr

/-- A layer of a slab: progressive number, bulk flag, atom list, and the
cached Cartesian origin/bottom-z updated by `getLayerPos`. This models
the `Layer` API used by `base_slab.py` (`num`, `isBulk`, `atlist`,
`cartbotz`, `cartori`); the refactored `layer.py` in `src/` names the
same data `num`, `is_bulk`, `atlist`, `cartbotz`, `cartori`. -/
structure PLayer where
  num : ℕ
  isBulk : Bool
  atlist : List Atom
  cartori : Option Vec3
  cartbotz : Option ℚ
deriving DecidableEq, Repr

/-- The state of a `BaseSlab` instance that the embedded operations
read or write. `ucell = none` models the uninitialized `np.array([])`;
`elements` models the keys of `n_per_elem` (the element order as read
from POSCAR). -/
structure SlabCore where
  ucell : Option Mat3
  atlist : List Atom
  layers : List PLayer
  sublayers : List PLayer
  topat_ori_z : Option ℚ
  elements : List String
  layers_initialized : Bool
deriving DecidableEq, Repr

/-- A surface slab together with its optional companion bulk slab
(`self.bulkslab`; a bulk slab has no `bulkslab` attribute of its own). -/
structure Slab where
  core : SlabCore
  bulkslab : Option SlabCore
deriving DecidableEq, Repr

/-- `BaseSlab.collapseFractionalCoordinates`: for every atom,
`at.pos = at.pos % 1.0` (componentwise fractional part). -/
def collapseFractionalCoordinates (s : SlabCore) : SlabCore :=
  { s with atlist := s.atlist.map fun a => { a with pos := a.pos.fract } }

/-- A concrete one-atom slab whose fractional c component is 3/2,
used to exhibit the behaviour of the fractional collapse. -/
def collapseExampleSlab : SlabCore :=
  { ucell := none, atlist := [⟨"A", 1, ⟨0, 0, 3/2⟩, ⟨0, 0, 0⟩⟩],
    layers := [], sublayers := [], topat_ori_z := none,
    elements := ["A"], layers_initialized := false }

/-- Claim C3 (counterexample): `collapseFractionalCoordinates` does not
leave the fractional c (third) component unchanged: on a slab with one
atom at fractional position (0, 0, 3/2) the collapsed third component is
1/2 rather than 3/2, because the source wraps `at.pos % 1.0` on the
whole 3-vector. -/
theorem collapse_changes_c_component :
    ((collapseFractionalCoordinates collapseExampleSlab).atlist.map
      fun a => a.pos.z) = [1/2] ∧
    (collapseExampleSlab.atlist.map fun a => a.pos.z) = [3/2] := by
  constructor
  · simp [collapseFractionalCoordinates, collapseExampleSlab, Vec3.fract]
    norm_num [Int.fract]
  · simp [collapseExampleSlab]

/-- Claim C3 (amended): `collapseFractionalCoordinates` wraps every
atom's fractional position into [0,1) along all three directions — a and
b but also the fractional c component — leaving element labels,
numbering and Cartesian positions unchanged. -/
theorem collapseFractional_wraps_all_components (s : SlabCore) :
    (collapseFractionalCoordinates s).atlist
        = s.atlist.map (fun a => { a with pos := a.pos.fract }) ∧
    ∀ a ∈ (collapseFractionalCoordinates s).atlist,
      0 ≤ a.pos.x ∧ a.pos.x < 1 ∧ 0 ≤ a.pos.y ∧ a.pos.y < 1 ∧
      0 ≤ a.pos.z ∧ a.pos.z < 1 := by
  refine ⟨rfl, ?_⟩
  intro a ha
  simp only [collapseFractionalCoordinates, List.mem_map] at ha
  obtain ⟨b, -, rfl⟩ := ha
  exact ⟨Int.fract_nonneg _, Int.fract_lt_one _, Int.fract_nonneg _,
    Int.fract_lt_one _, Int.fract_nonneg _, Int.fract_lt_one _⟩

/-- `atlist.sort(key=lambda atom: atom.pos[2])`: stable ascending sort
of atoms by fractional z (Python's list.sort is stable; insertion sort
is stable as well). -/
def zsort (l : List Atom) : List Atom :=
  l.insertionSort (fun a b => a.pos.z ≤ b.pos.z)

/-- `BaseSlab.sort_by_z` (with the default `botToTop=False`). -/
def sort_by_z (s : SlabCore) : SlabCore :=
  { s with atlist := zsort s.atlist }

/-- `BaseSlab.getCartesianCoordinates(updateOrigin)`: Cartesian
coordinates from `ucell @ pos` with the z component flipped and shifted
so that z = 0 at the cached topmost-atom plane. Raises `IndexError` on
an empty atom list (`al[-1]`), `ValueError` when no unit cell is set
(`np.dot` shape mismatch with `np.array([])`). -/
def getCartesianCoordinates (updateOrigin : Bool) (s : SlabCore) :
    Except PyError SlabCore :=
  match (zsort s.atlist).getLast? with
  | none => .error .indexError
  | some topat =>
    match s.ucell with
    | none => .error .valueError
    | some U =>
      let oriz :=
        if updateOrigin || s.topat_ori_z.isNone then (U.mulVec topat.pos).z
        else s.topat_ori_z.getD 0
      .ok { s with
        topat_ori_z := some oriz,
        atlist := s.atlist.map fun a =>
          { a with cartpos := ⟨(U.mulVec a.pos).x, (U.mulVec a.pos).y,
              oriz - (U.mulVec a.pos).z⟩ } }

/-- `BaseSlab.getFractionalCoordinates`: fractional coordinates from the
unit-cell inverse, undoing the z flip-and-shift. `np.linalg.inv` raises
`numpy.linalg.LinAlgError` when no unit cell is set (non-2D array) or
when the cell is singular; a `topat_ori_z` that was never set (`None`)
raises `TypeError` at `self.topat_ori_z - tp[2]` if any atom is
processed. -/
def getFractionalCoordinates (s : SlabCore) : Except PyError SlabCore :=
  match s.ucell with
  | none => .error .linAlgError
  | some U =>
    if U.det = 0 then .error .linAlgError
    else
      match s.topat_ori_z with
      | none => if s.atlist.isEmpty then .ok s else .error .typeError
      | some oz =>
        .ok { s with atlist := s.atlist.map fun a =>
          { a with
            pos := U.inv.mulVec ⟨a.cartpos.x, a.cartpos.y, oz - a.cartpos.z⟩ } }

/-- `BaseSlab.collapseCartesianCoordinates(updateOrigin)`: fractional
recomputation, fractional collapse, Cartesian refresh. -/
def collapseCartesianCoordinates (updateOrigin : Bool) (s : SlabCore) :
    Except PyError SlabCore := do
  let s1 ← getFractionalCoordinates s
  let s2 := collapseFractionalCoordinates s1
  getCartesianCoordinates updateOrigin s2

/-- The exact inverse of a 3×3 matrix with nonzero determinant undoes
`mulVec` (the linear-algebra core of the coordinate round trip). -/
theorem Mat3.inv_mulVec_cancel (m : Mat3) (hdet : m.det ≠ 0) (v : Vec3) :
    m.inv.mulVec (m.mulVec v) = v := by
  obtain ⟨a, b, c, d, e, f, g, h, i⟩ := m
  obtain ⟨x, y, z⟩ := v
  simp only [Mat3.inv, Mat3.mulVec, Mat3.det] at hdet ⊢
  rw [Vec3.mk.injEq]
  refine ⟨?_, ?_, ?_⟩ <;> (field_simp; ring)

/-- Claim C9: applying `collapseFractionalCoordinates` twice yields
exactly the same slab state as applying it once (idempotence of the
wrap into [0,1)). -/
theorem collapseFractional_idempotent (s : SlabCore) :
    collapseFractionalCoordinates (collapseFractionalCoordinates s)
      = collapseFractionalCoordinates s := by
  show ({ s with atlist := _ } : SlabCore) = { s with atlist := _ }
  simp only [collapseFractionalCoordinates, List.map_map]
  congr 1
  apply List.map_congr_left
  intro a _
  show ({ a with pos := a.pos.fract.fract } : Atom)
      = { a with pos := a.pos.fract }
  rw [Vec3.fract_fract]

/-- Sorting atoms by z never turns a nonempty atom list empty. -/
theorem zsort_ne_nil {l : List Atom} (h : l ≠ []) : zsort l ≠ [] := by
  intro hz
  apply h
  have hp := List.perm_insertionSort
    (fun a b : Atom => a.pos.z ≤ b.pos.z) l
  rw [zsort] at hz
  rw [hz] at hp
  exact hp.symm.eq_nil

/-- Claim C6: for a slab with a set, non-singular unit cell,
`getFractionalCoordinates` exactly inverts `getCartesianCoordinates`
(including the z flip-and-shift), for either origin convention: every
atom's fractional position is recovered exactly (hence within 1e-9). -/
theorem cart_frac_round_trip (s : SlabCore) (U : Mat3) (upd : Bool)
    (s' s'' : SlabCore)
    (hU : s.ucell = some U) (hdet : U.det ≠ 0)
    (h1 : getCartesianCoordinates upd s = .ok s')
    (h2 : getFractionalCoordinates s' = .ok s'') :
    s''.atlist.map (fun a => a.pos) = s.atlist.map (fun a => a.pos) := by
  unfold getCartesianCoordinates at h1
  cases hl : (zsort s.atlist).getLast? with
  | none => rw [hl] at h1; simp at h1
  | some topat =>
    rw [hl, hU] at h1
    simp only [Except.ok.injEq] at h1
    subst h1
    unfold getFractionalCoordinates at h2
    dsimp only at h2
    rw [if_neg hdet] at h2
    simp only [Except.ok.injEq] at h2
    subst h2
    simp only [List.map_map]
    apply List.map_congr_left
    intro a _
    simp only [Function.comp_apply]
    have hz : ∀ q : ℚ, q - (q - (U.mulVec a.pos).z) = (U.mulVec a.pos).z :=
      fun q => by ring
    rw [hz]
    exact Mat3.inv_mulVec_cancel U hdet a.pos

/-- A concrete slab with unit cell diag(2,2,4) and one atom, used as the
round-trip witness input. -/
def rtSlab : SlabCore :=
  { ucell := some ⟨2, 0, 0, 0, 2, 0, 0, 0, 4⟩,
    atlist := [⟨"A", 1, ⟨1/2, 1/4, 3/4⟩, ⟨0, 0, 0⟩⟩],
    layers := [], sublayers := [], topat_ori_z := none,
    elements := ["A"], layers_initialized := false }

/-- The Cartesian coordinates of the round-trip witness slab. -/
def rtSlabCart : SlabCore :=
  { rtSlab with
    topat_ori_z := some 3,
    atlist := [⟨"A", 1, ⟨1/2, 1/4, 3/4⟩, ⟨1, 1/2, 0⟩⟩] }

/-- Claim C6 (witness): the round trip evaluated on `rtSlab`
(`getFractionalCoordinates` maps the Cartesian state to itself, with
the original fractional positions recovered). -/
theorem cart_frac_round_trip_witness :
    getCartesianCoordinates true rtSlab = .ok rtSlabCart ∧
    getFractionalCoordinates rtSlabCart = .ok rtSlabCart ∧
    rtSlabCart.atlist.map (fun a => a.pos)
      = rtSlab.atlist.map (fun a => a.pos) := by
  have h1 : getCartesianCoordinates true rtSlab = .ok rtSlabCart := by
    simp only [getCartesianCoordinates, rtSlab, rtSlabCart, zsort,
      List.insertionSort, List.orderedInsert, List.getLast?]
    norm_num [Mat3.mulVec]
  have h2 : getFractionalCoordinates rtSlabCart = .ok rtSlabCart := by
    simp only [getFractionalCoordinates, rtSlab, rtSlabCart]
    norm_num [Mat3.det, Mat3.inv, Mat3.mulVec]
  exact ⟨h1, h2, cart_frac_round_trip rtSlab ⟨2, 0, 0, 0, 2, 0, 0, 0, 4⟩ true
    rtSlabCart rtSlabCart rfl (by norm_num [Mat3.det]) h1 h2⟩

/-- A concrete slab with a singular unit cell (its a and b columns are
parallel), with one atom and a cached origin. -/
def singularSlab : SlabCore :=
  { ucell := some ⟨1, 2, 0, 2, 4, 0, 0, 0, 1⟩,
    atlist := [⟨"A", 1, ⟨0, 0, 0⟩, ⟨0, 0, 0⟩⟩],
    layers := [], sublayers := [], topat_ori_z := some 0,
    elements := ["A"], layers_initialized := false }

/-- Claim C2 (counterexample): computing fractional coordinates with a
singular unit cell fails with numpy's `LinAlgError`, which is not part
of the typed slab error taxonomy of `slab_errors.py` — that taxonomy
contains no `DegenerateCellError` (nor `UninitializedCellError`). -/
theorem singular_cell_raises_numpy_error :
    getFractionalCoordinates singularSlab = .error .linAlgError ∧
    PyError.linAlgError.isSlabError = false := by
  constructor
  · simp only [getFractionalCoordinates, singularSlab]
    norm_num [Mat3.det]
  · rfl

/-- Claim C2 (amended): with a singular unit cell, fractional
coordinates fail with numpy's `LinAlgError`; with no unit cell set,
Cartesian coordinates fail with an untyped `ValueError` and fractional
coordinates with `LinAlgError`. None of these is a typed error of
`slab_errors.py`; the taxonomy there has no `DegenerateCellError` or
`UninitializedCellError`. -/
theorem coordinate_cell_errors (s : SlabCore) :
    (∀ U, s.ucell = some U → U.det = 0 →
      getFractionalCoordinates s = .error .linAlgError) ∧
    (s.ucell = none → getFractionalCoordinates s = .error .linAlgError) ∧
    (s.ucell = none → s.atlist ≠ [] → ∀ upd,
      getCartesianCoordinates upd s = .error .valueError) ∧
    PyError.linAlgError.isSlabError = false ∧
    PyError.valueError.isSlabError = false := by
  refine ⟨?_, ?_, ?_, rfl, rfl⟩
  · intro U hU hdet
    unfold getFractionalCoordinates
    rw [hU]
    dsimp only
    rw [if_pos hdet]
  · intro hU
    unfold getFractionalCoordinates
    rw [hU]
  · intro hU hne upd
    unfold getCartesianCoordinates
    cases hl : (zsort s.atlist).getLast? with
    | none =>
      exact absurd (List.getLast?_eq_none_iff.mp hl) (zsort_ne_nil hne)
    | some topat =>
      dsimp only
      rw [hU]

/-- Claim C2 (witness): the amended error behaviour evaluated on
concrete slabs. -/
theorem coordinate_cell_errors_witness :
    getFractionalCoordinates singularSlab = .error .linAlgError ∧
    getFractionalCoordinates { singularSlab with ucell := none }
      = .error .linAlgError ∧
    getCartesianCoordinates true { singularSlab with ucell := none }
      = .error .valueError := by
  refine ⟨?_, ?_, ?_⟩
  · exact (coordinate_cell_errors singularSlab).1 _ rfl (by norm_num [Mat3.det])
  · exact (coordinate_cell_errors _).2.1 rfl
  · exact (coordinate_cell_errors _).2.2.1 rfl (by simp [singularSlab]) true

/-- An argument passed to `apply_scaling`: either a number (an instance
of `numbers.Real`) or some non-numeric Python object. -/
inductive ScaleArg where
  | num : ℚ → ScaleArg
  | nonNum : ScaleArg
deriving DecidableEq, Repr

/-- `isinstance(s, Real)` for a scaling argument. -/
def ScaleArg.isNum : ScaleArg → Bool
  | .num _ => true
  | .nonNum => false

/-- The numeric value of a scaling argument, when it is one. -/
def ScaleArg.val : ScaleArg → Option ℚ
  | .num q => some q
  | .nonNum => none

/-- The diagonal 3×3 matrix `np.diag(scaling)`. -/
def diag3 (sx sy sz : ℚ) : Mat3 := ⟨sx, 0, 0, 0, sy, 0, 0, 0, sz⟩

/-- `BaseSlab.apply_scaling(*scaling)` acting on one slab instance
(`self` or its companion bulk slab). Argument checks come first (a
`TypeError` for an argument count other than 1 or 3 or for a
non-numeric entry, a `ValueError` for a near-zero factor), all before
any mutation; on an error the state at raise time is carried along. -/
def apply_scaling_core (args : List ScaleArg) (s : SlabCore) :
    Except (PyError × SlabCore) (SlabCore × Mat3) :=
  if ¬(args.length = 1 ∨ args.length = 3) then .error (.typeError, s)
  else if ¬(args.all ScaleArg.isNum) then .error (.typeError, s)
  else
    let vals0 := args.filterMap ScaleArg.val
    let vals := if args.length = 1 then vals0 ++ vals0 ++ vals0 else vals0
    if vals.any (fun v => |v| < 1/100000) then .error (.valueError, s)
    else
      let sx := vals.getD 0 0
      let sy := vals.getD 1 0
      let sz := vals.getD 2 0
      match s.ucell with
      | none => .error (.valueError, s)
      | some U =>
        let s1 := { s with ucell := some (U.mul (diag3 sx sy sz)) }
        match getCartesianCoordinates (decide (sz ≠ 1)) s1 with
        | .error e => .error (e, s1)
        | .ok s2 => .ok (s2, diag3 sx sy sz)

/-- `BaseSlab.apply_scaling(*scaling)` on a surface slab: after scaling
`self`, the same scaling is applied to `self.bulkslab` if present (the
`AttributeError` of a missing companion is swallowed). Returns the
scaling matrix. -/
def apply_scaling (args : List ScaleArg) (sl : Slab) :
    Except (PyError × Slab) (Slab × Mat3) :=
  match apply_scaling_core args sl.core with
  | .error (e, c') => .error (e, ⟨c', sl.bulkslab⟩)
  | .ok (c', sm) =>
    match sl.bulkslab with
    | none => .ok (⟨c', none⟩, sm)
    | some b =>
      match apply_scaling_core args b with
      | .error (e, b') => .error (e, ⟨c', some b'⟩)
      | .ok (b', _) => .ok (⟨c', some b'⟩, sm)

/-- The invalid-argument conditions of claim C10: wrong number of
values, a non-numeric value, or a factor of magnitude below 1e-5. -/
def invalidScaling (args : List ScaleArg) : Prop :=
  ¬(args.length = 1 ∨ args.length = 3) ∨
  (∃ a ∈ args, a.isNum = false) ∨
  (∃ q, ScaleArg.num q ∈ args ∧ |q| < 1/100000)

/-- Claim C10: `apply_scaling` is atomic on invalid arguments — for a
wrong argument count, a non-numeric argument, or a factor of magnitude
below 1e-5 it raises `TypeError` or `ValueError` with the slab (unit
cell and all atom coordinates) unchanged; and a single scalar `s`
behaves exactly like the triple `(s, s, s)`. -/
theorem apply_scaling_atomic (sl : Slab) (args : List ScaleArg)
    (q : ℚ) (hbad : invalidScaling args) :
    (∃ e, apply_scaling args sl = .error (e, sl) ∧
      (e = .typeError ∨ e = .valueError)) ∧
    apply_scaling [.num q] sl
      = apply_scaling [.num q, .num q, .num q] sl := by
  constructor
  · have hcore : ∃ e, apply_scaling_core args sl.core = .error (e, sl.core) ∧
        (e = PyError.typeError ∨ e = PyError.valueError) := by
      by_cases hlen : args.length = 1 ∨ args.length = 3
      · by_cases hnum : args.all ScaleArg.isNum
        · -- all numeric, right count: the bad factor case must apply
          have hsmall : ∃ q, ScaleArg.num q ∈ args ∧ |q| < 1/100000 := by
            rcases hbad with h | ⟨a, ha, hna⟩ | h
            · exact absurd hlen h
            · rw [List.all_eq_true] at hnum
              exact absurd (hnum a ha) (by simp [hna])
            · exact h
          refine ⟨.valueError, ?_, Or.inr rfl⟩
          unfold apply_scaling_core
          rw [if_neg (not_not_intro hlen), if_neg (not_not_intro hnum)]
          have hany : ((if args.length = 1
              then args.filterMap ScaleArg.val ++ args.filterMap ScaleArg.val
                ++ args.filterMap ScaleArg.val
              else args.filterMap ScaleArg.val).any
                fun v => |v| < 1/100000) = true := by
            obtain ⟨q', hq', hsm⟩ := hsmall
            have hmem : q' ∈ args.filterMap ScaleArg.val :=
              List.mem_filterMap.mpr ⟨.num q', hq', rfl⟩
            rw [List.any_eq_true]
            refine ⟨q', ?_, by simpa using hsm⟩
            by_cases h1 : args.length = 1
            · rw [if_pos h1]
              exact List.mem_append.mpr (Or.inl (List.mem_append.mpr
                (Or.inl hmem)))
            · rw [if_neg h1]
              exact hmem
          rw [if_pos hany]
        · refine ⟨.typeError, ?_, Or.inl rfl⟩
          unfold apply_scaling_core
          rw [if_neg (not_not_intro hlen), if_pos hnum]
      · refine ⟨.typeError, ?_, Or.inl rfl⟩
        unfold apply_scaling_core
        rw [if_pos hlen]
    obtain ⟨e, he, hor⟩ := hcore
    refine ⟨e, ?_, hor⟩
    unfold apply_scaling
    rw [he]
  · unfold apply_scaling apply_scaling_core
    norm_num [ScaleArg.isNum, ScaleArg.val, List.filterMap]

/-- Claim C10 (witness): evaluation with an empty argument list on a
concrete slab, plus the scalar/triple agreement at 2. -/
theorem apply_scaling_atomic_witness :
    (∃ e, apply_scaling [] ⟨rtSlab, none⟩ = .error (e, ⟨rtSlab, none⟩) ∧
      (e = .typeError ∨ e = .valueError)) ∧
    apply_scaling [.num 2] ⟨rtSlab, none⟩
      = apply_scaling [.num 2, .num 2, .num 2] ⟨rtSlab, none⟩ :=
  apply_scaling_atomic ⟨rtSlab, none⟩ [] 2 (Or.inl (by simp))

/-- Multiplying by the identity on the right is the identity. -/
theorem Mat3.mul_one (m : Mat3) : m.mul Mat3.one = m := by
  obtain ⟨a, b, c, d, e, f, g, h, i⟩ := m
  simp only [Mat3.mul, Mat3.one, Mat3.mk.injEq]
  refine ⟨?_, ?_, ?_, ?_, ?_, ?_, ?_, ?_, ?_⟩ <;> ring

/-- Multiplying by the identity on the left is the identity. -/
theorem Mat3.one_mul (m : Mat3) : Mat3.one.mul m = m := by
  obtain ⟨a, b, c, d, e, f, g, h, i⟩ := m
  simp only [Mat3.mul, Mat3.one, Mat3.mk.injEq]
  refine ⟨?_, ?_, ?_, ?_, ?_, ?_, ?_, ?_, ?_⟩ <;> ring

/-- Matrix multiplication of 3×3 matrices is associative. -/
theorem Mat3.mul_assoc (m n p : Mat3) :
    (m.mul n).mul p = m.mul (n.mul p) := by
  obtain ⟨a, b, c, d, e, f, g, h, i⟩ := m
  obtain ⟨a', b', c', d', e', f', g', h', i'⟩ := n
  obtain ⟨a'', b'', c'', d'', e'', f'', g'', h'', i''⟩ := p
  simp only [Mat3.mul, Mat3.mk.injEq]
  refine ⟨?_, ?_, ?_, ?_, ?_, ?_, ?_, ?_, ?_⟩ <;> ring

/-- The determinant is multiplicative on 3×3 matrices. -/
theorem Mat3.det_mul (m n : Mat3) : (m.mul n).det = m.det * n.det := by
  obtain ⟨a, b, c, d, e, f, g, h, i⟩ := m
  obtain ⟨a', b', c', d', e', f', g', h', i'⟩ := n
  simp only [Mat3.mul, Mat3.det]
  ring

/-- Transposition preserves the determinant. -/
theorem Mat3.det_transpose (m : Mat3) : m.transpose.det = m.det := by
  obtain ⟨a, b, c, d, e, f, g, h, i⟩ := m
  simp only [Mat3.transpose, Mat3.det]
  ring

/-- A 3×3 matrix with nonzero determinant times its inverse is 1. -/
theorem Mat3.mul_inv_cancel (m : Mat3) (hdet : m.det ≠ 0) :
    m.mul m.inv = Mat3.one := by
  obtain ⟨a, b, c, d, e, f, g, h, i⟩ := m
  simp only [Mat3.inv, Mat3.mul, Mat3.one, Mat3.det, Mat3.mk.injEq] at hdet ⊢
  refine ⟨?_, ?_, ?_, ?_, ?_, ?_, ?_, ?_, ?_⟩ <;> (field_simp; try ring)

/-- The inverse of a 3×3 matrix with nonzero determinant times the
matrix is 1. -/
theorem Mat3.inv_mul_cancel (m : Mat3) (hdet : m.det ≠ 0) :
    m.inv.mul m = Mat3.one := by
  obtain ⟨a, b, c, d, e, f, g, h, i⟩ := m
  simp only [Mat3.inv, Mat3.mul, Mat3.one, Mat3.det, Mat3.mk.injEq] at hdet ⊢
  refine ⟨?_, ?_, ?_, ?_, ?_, ?_, ?_, ?_, ?_⟩ <;> (field_simp; try ring)

/-- An orthogonal 3×3 matrix (Oᵀ·O = 1) has nonzero determinant. -/
theorem Mat3.orth_det_ne_zero {m : Mat3}
    (h : m.transpose.mul m = Mat3.one) : m.det ≠ 0 := by
  intro hz
  have h1 : (m.transpose.mul m).det = 1 := by
    rw [h]; simp [Mat3.one, Mat3.det]
  rw [Mat3.det_mul, Mat3.det_transpose, hz] at h1
  norm_num at h1

/-- For an orthogonal matrix the exact inverse equals the transpose
(`np.allclose(np.linalg.inv(O), O.T)` holds exactly). -/
theorem Mat3.orth_inv_eq_transpose {m : Mat3}
    (h : m.transpose.mul m = Mat3.one) : m.inv = m.transpose := by
  have hdet := Mat3.orth_det_ne_zero h
  calc m.inv = Mat3.one.mul m.inv := (Mat3.one_mul _).symm
    _ = (m.transpose.mul m).mul m.inv := by rw [h]
    _ = m.transpose.mul (m.mul m.inv) := Mat3.mul_assoc _ _ _
    _ = m.transpose.mul Mat3.one := by rw [Mat3.mul_inv_cancel _ hdet]
    _ = m.transpose := Mat3.mul_one _

/-- Conversely, a matrix with nonzero determinant whose inverse is its
transpose is orthogonal. -/
theorem Mat3.inv_eq_transpose_orth {m : Mat3} (hdet : m.det ≠ 0)
    (h : m.inv = m.transpose) : m.transpose.mul m = Mat3.one := by
  rw [← h]
  exact Mat3.inv_mul_cancel _ hdet

/-- `x[abs(x) < 1e-5] = 0`: clamp small magnitudes to zero. -/
def snapq (q : ℚ) : ℚ := if |q| < 1/100000 then 0 else q

/-- `self.ucell[abs(self.ucell) < 1e-5] = 0.`, entrywise on a 3×3. -/
def Mat3.snap (m : Mat3) : Mat3 :=
  ⟨snapq m.m00, snapq m.m01, snapq m.m02, snapq m.m10, snapq m.m11,
   snapq m.m12, snapq m.m20, snapq m.m21, snapq m.m22⟩

/-- Whether the transformation changes the z row: `changes_z = not
np.allclose(trafo_matrix[2], (0, 0, 1))` (exact comparison here). -/
def changesZ (O : Mat3) : Bool :=
  !(decide (O.m20 = 0) && decide (O.m21 = 0) && decide (O.m22 = 1))

/-- `BaseSlab.apply_matrix_transformation(trafo_matrix)` acting on one
slab instance: the orthogonality check `np.allclose(np.linalg.inv(O),
O.T)` (`LinAlgError` — a numpy subclass of `ValueError` — if O is
singular, `ValueError` if the inverse differs from the transpose),
then `ucell ← O·ucell` with small entries clamped to zero, a Cartesian
recomputation (`updateOrigin=changes_z`), and clearing of layers and
sublayers when the z row changed. The 3-by-3 shape check of the source
is subsumed by the `Mat3` argument type. -/
def applyMatrixCore (O : Mat3) (s : SlabCore) :
    Except (PyError × SlabCore) SlabCore :=
  if O.det = 0 then .error (.linAlgError, s)
  else if O.inv = O.transpose then
    match s.ucell with
    | none => .error (.valueError, s)
    | some U =>
      let s1 := { s with ucell := some ((O.mul U).snap) }
      match getCartesianCoordinates (changesZ O) s1 with
      | .error e => .error (e, s1)
      | .ok s2 =>
        if changesZ O then .ok { s2 with layers := [], sublayers := [] }
        else .ok s2
  else .error (.valueError, s)

/-- `BaseSlab.apply_matrix_transformation(trafo_matrix)` on a surface
slab: after transforming `self`, the companion `bulkslab` is set to
`None` when the transformation touched z, and is transformed by the
same matrix otherwise. -/
def apply_matrix_transformation (O : Mat3) (sl : Slab) :
    Except (PyError × Slab) Slab :=
  match applyMatrixCore O sl.core with
  | .error (e, c') => .error (e, ⟨c', sl.bulkslab⟩)
  | .ok c' =>
    if changesZ O then .ok ⟨c', none⟩
    else
      match sl.bulkslab with
      | none => .ok ⟨c', none⟩
      | some b =>
        match applyMatrixCore O b with
        | .error (e, b') => .error (e, ⟨c', some b'⟩)
        | .ok b' => .ok ⟨c', some b'⟩

/-- A successful `getCartesianCoordinates` only rewrites `topat_ori_z`
and the atoms' Cartesian positions: all other slab fields survive. -/
theorem getCartesianCoordinates_ok_fields (upd : Bool) (s t : SlabCore)
    (h : getCartesianCoordinates upd s = .ok t) :
    t.layers = s.layers ∧ t.sublayers = s.sublayers ∧
    t.ucell = s.ucell ∧ t.elements = s.elements ∧
    t.layers_initialized = s.layers_initialized := by
  unfold getCartesianCoordinates at h
  cases hl : (zsort s.atlist).getLast? with
  | none => rw [hl] at h; simp at h
  | some topat =>
    rw [hl] at h
    cases hu : s.ucell with
    | none => rw [hu] at h; simp at h
    | some U =>
      rw [hu] at h
      simp only [Except.ok.injEq] at h
      subst h
      exact ⟨rfl, rfl, rfl, rfl, rfl⟩

/-- A non-orthogonal matrix makes `applyMatrixCore` raise a
`ValueError` (numpy's `LinAlgError` when singular) with the slab
untouched. -/
theorem applyMatrixCore_nonorth (O : Mat3) (s : SlabCore)
    (hno : ¬(O.transpose.mul O = Mat3.one)) :
    ∃ e, applyMatrixCore O s = .error (e, s) ∧ e.isValueError = true := by
  by_cases hdet : O.det = 0
  · refine ⟨.linAlgError, ?_, rfl⟩
    unfold applyMatrixCore
    rw [if_pos hdet]
  · have hne : ¬(O.inv = O.transpose) := fun he =>
      hno (Mat3.inv_eq_transpose_orth hdet he)
    refine ⟨.valueError, ?_, rfl⟩
    unfold applyMatrixCore
    rw [if_neg hdet, if_neg hne]

/-- A successful `applyMatrixCore` keeps layers and sublayers when the
z row is untouched, and clears both when it changed. -/
theorem applyMatrixCore_ok_layers (O : Mat3) (s t : SlabCore)
    (h : applyMatrixCore O s = .ok t) :
    (changesZ O = false → t.layers = s.layers ∧ t.sublayers = s.sublayers) ∧
    (changesZ O = true → t.layers = [] ∧ t.sublayers = []) := by
  unfold applyMatrixCore at h
  split at h
  · simp at h
  · split at h
    · -- the orthogonality check passed
      split at h
      · simp at h
      · -- a unit cell is present; the `changes_z` branch comes next
        split at h
        · -- z row changed: layers and sublayers are cleared
          rename_i hcz
          dsimp only at h
          split at h
          · simp at h
          · rename_i s2 heq
            simp only [Except.ok.injEq] at h
            subst h
            refine ⟨fun hf => ?_, fun _ => ⟨rfl, rfl⟩⟩
            rw [hf] at hcz
            cases hcz
        · -- z row untouched: the Cartesian refresh keeps the layers
          rename_i hcz
          have hcf : changesZ O = false := by
            rcases Bool.eq_false_or_eq_true (changesZ O) with hc | hc
            · exact absurd hc hcz
            · exact hc
          dsimp only at h
          split at h
          · simp at h
          · rename_i s2 heq
            simp only [Except.ok.injEq] at h
            subst h
            obtain ⟨hl2, hs2, -, -, -⟩ :=
              getCartesianCoordinates_ok_fields _ _ _ heq
            refine ⟨fun _ => ⟨hl2, hs2⟩, fun ht => ?_⟩
            rw [ht] at hcf
            cases hcf
    · simp at h

/-- Claim C8: `apply_matrix_transformation(O)` raises a `ValueError`
(possibly numpy's `LinAlgError` subclass, for a singular O) with the
slab untouched whenever the 3×3 matrix O is not orthogonal; for an
orthogonal O whose third row is (0,0,1) the layers and sublayers lists
survive unchanged, the bulk-slab reference stays present, and the same
transform is applied to the companion bulk slab; for an orthogonal O
with a different third row, layers and sublayers are cleared and the
bulk-slab reference is invalidated. (The non-3×3-shape branch of the
source, also a `ValueError`, is subsumed by the `Mat3` argument type.) -/
theorem apply_matrix_transformation_spec (sl : Slab) (O : Mat3) :
    (¬(O.transpose.mul O = Mat3.one) →
      ∃ e, apply_matrix_transformation O sl = .error (e, sl) ∧
        e.isValueError = true) ∧
    (O.transpose.mul O = Mat3.one → O.m20 = 0 → O.m21 = 0 → O.m22 = 1 →
      ∀ sl', apply_matrix_transformation O sl = .ok sl' →
        sl'.core.layers = sl.core.layers ∧
        sl'.core.sublayers = sl.core.sublayers ∧
        sl'.bulkslab.isSome = sl.bulkslab.isSome ∧
        ∀ b, sl.bulkslab = some b → ∃ b', sl'.bulkslab = some b' ∧
          applyMatrixCore O b = .ok b') ∧
    (O.transpose.mul O = Mat3.one → ¬(O.m20 = 0 ∧ O.m21 = 0 ∧ O.m22 = 1) →
      ∀ sl', apply_matrix_transformation O sl = .ok sl' →
        sl'.core.layers = [] ∧ sl'.core.sublayers = [] ∧
        sl'.bulkslab = none) := by
  refine ⟨?_, ?_, ?_⟩
  · intro hno
    obtain ⟨e, hcore, hval⟩ := applyMatrixCore_nonorth O sl.core hno
    refine ⟨e, ?_, hval⟩
    unfold apply_matrix_transformation
    rw [hcore]
  · intro horth h20 h21 h22 sl' hok
    have hz : changesZ O = false := by
      simp [changesZ, h20, h21, h22]
    unfold apply_matrix_transformation at hok
    split at hok
    · simp at hok
    · rename_i c' heqc
      rw [hz] at hok
      rw [if_neg Bool.false_ne_true] at hok
      obtain ⟨hkeep, -⟩ := applyMatrixCore_ok_layers O sl.core c' heqc
      obtain ⟨hl2, hs2⟩ := hkeep hz
      split at hok
      · rename_i hbnone
        simp only [Except.ok.injEq] at hok
        subst hok
        refine ⟨hl2, hs2, by rw [hbnone], fun b hbb => ?_⟩
        rw [hbnone] at hbb
        cases hbb
      · rename_i b hbsome
        split at hok
        · simp at hok
        · rename_i b' heqb
          simp only [Except.ok.injEq] at hok
          subst hok
          exact ⟨hl2, hs2, by rw [hbsome]; rfl, fun b0 hbb => by
            rw [hbsome] at hbb
            cases hbb
            exact ⟨b', rfl, heqb⟩⟩
  · intro horth hrow sl' hok
    have hz : changesZ O = true := by
      by_cases hcond : (decide (O.m20 = 0) && decide (O.m21 = 0)
          && decide (O.m22 = 1)) = true
      · simp only [Bool.and_eq_true, decide_eq_true_eq] at hcond
        exact absurd ⟨hcond.1.1, hcond.1.2, hcond.2⟩ hrow
      · have hfalse : (decide (O.m20 = 0) && decide (O.m21 = 0)
            && decide (O.m22 = 1)) = false := by simpa using hcond
        rw [changesZ, hfalse]
        rfl
    unfold apply_matrix_transformation at hok
    split at hok
    · simp at hok
    · rename_i c' heqc
      rw [hz] at hok
      rw [if_pos rfl] at hok
      simp only [Except.ok.injEq] at hok
      subst hok
      obtain ⟨-, hclear⟩ := applyMatrixCore_ok_layers O sl.core c' heqc
      obtain ⟨hl2, hs2⟩ := hclear hz
      exact ⟨hl2, hs2, rfl⟩

/-- The in-plane 90° rotation matrix of the source's doc example. -/
def rot90 : Mat3 := ⟨0, -1, 0, 1, 0, 0, 0, 0, 1⟩

/-- `rtSlab` after the 90° in-plane rotation: rotated unit cell and
Cartesian positions, layers/sublayers/bulk reference untouched. -/
def wRotSlab : Slab :=
  ⟨{ rtSlab with
      ucell := some ⟨0, -2, 0, 2, 0, 0, 0, 0, 4⟩,
      topat_ori_z := some 3,
      atlist := [⟨"A", 1, ⟨1/2, 1/4, 3/4⟩, ⟨-1/2, 1, 0⟩⟩] }, none⟩

/-- Claim C8 (witness): the in-plane 90° rotation applied to a concrete
slab succeeds and leaves layers, sublayers and the bulk reference
unchanged. -/
theorem apply_matrix_transformation_spec_witness :
    apply_matrix_transformation rot90 ⟨rtSlab, none⟩ = .ok wRotSlab ∧
    wRotSlab.core.layers = rtSlab.layers ∧
    wRotSlab.core.sublayers = rtSlab.sublayers ∧
    wRotSlab.bulkslab.isSome = (none : Option SlabCore).isSome := by
  have horth : rot90.transpose.mul rot90 = Mat3.one := by
    norm_num [rot90, Mat3.transpose, Mat3.mul, Mat3.one, Mat3.mk.injEq]
  have hcz : changesZ rot90 = false := by
    simp [changesZ, rot90]
  have h : apply_matrix_transformation rot90 ⟨rtSlab, none⟩
      = .ok wRotSlab := by
    unfold apply_matrix_transformation applyMatrixCore
    rw [hcz]
    norm_num [rot90, rtSlab, wRotSlab, Mat3.det, Mat3.inv, Mat3.transpose,
      Mat3.mul, Mat3.snap, snapq, Mat3.mk.injEq, getCartesianCoordinates,
      zsort, List.insertionSort, List.orderedInsert, Mat3.mulVec]
  have hmain := (apply_matrix_transformation_spec ⟨rtSlab, none⟩ rot90).2.1
    horth rfl rfl rfl wRotSlab h
  exact ⟨h, hmain.1, hmain.2.1, hmain.2.2.1⟩

/-- Componentwise fractional part of a 2-vector (`% 1.0`). -/
def Vec2.fract (v : Vec2) : Vec2 := ⟨Int.fract v.x, Int.fract v.y⟩

/-- The in-plane (x, y) part of a 3-vector. -/
def Vec3.xy (v : Vec3) : Vec2 := ⟨v.x, v.y⟩

/-- `BaseSlab.check_a_b_out_of_plane`: raise `InvalidUnitCellError`
when the a or b unit vector has a nonzero out-of-surface (z)
component (`any(self.ucell[2, :2])`); indexing an unset (empty) cell
raises `IndexError`. -/
def check_a_b_out_of_plane (s : SlabCore) : Except PyError Unit :=
  match s.ucell with
  | none => .error .indexError
  | some U =>
    if U.m20 ≠ 0 ∨ U.m21 ≠ 0 then .error (.slabError .invalidUnitCell)
    else .ok ()

/-- A mirror/glide plane: in-plane position, direction, and the
direction expressed in unit-cell vectors (`SymPlane` of the repository;
the class itself is outside `src/`, and only the `pos`, `dir` and `par`
attributes are used by the embedded code). -/
structure SymPlane where
  pos : Vec2
  dir : Vec2
  par : ℚ × ℚ
deriving DecidableEq, Repr

/-- Modelled from the spec: the mirror operation matrix
`inv(rotm) @ [[1,0],[0,-1]] @ rotm` with `rotm = rotation_matrix(
angle(dir, x))` — the helpers `angle` and `rotation_matrix` of
`viperleed.tleedmlib.base` are not under `src/`. The composition is
the reflection across the line along `dir`, which for a direction
(dx, dy) is the matrix (1/(dx²+dy²))·[[dx²−dy², 2dxdy],
[2dxdy, dy²−dx²]], exact over ℚ. -/
def mirrorMatrix (d : Vec2) : Mat2 :=
  let n := d.x ^ 2 + d.y ^ 2
  ⟨(d.x ^ 2 - d.y ^ 2) / n, 2 * d.x * d.y / n,
   2 * d.x * d.y / n, (d.y ^ 2 - d.x ^ 2) / n⟩

/-- Whether a (relative) coordinate `comp` is within `eps/‖v‖` of zero
(`abs(p[j]) < releps[j]`), encoded by squares: for `eps > 0` this is
`comp² · ‖v‖² < eps²`, which also matches numpy's behaviour when
`‖v‖ = 0` (`releps = inf`, condition true). -/
def nearEdge (eps comp : ℚ) (v : Vec2) : Bool :=
  decide (comp ^ 2 * v.norm2 < eps ^ 2)

/-- The periodic-image augmentation of one collapsed point for the
in-plane symmetry checks: a point near an edge of the base cell is
also compared at its translate(s) across that edge; a point near a
corner additionally at the diagonally opposed corner. `p` is the
collapsed fractional position, `c = ab @ p` the collapsed Cartesian
one. -/
def addlist2 (ab : Mat2) (eps : ℚ) (p c : Vec2) : List Vec2 :=
  let a0 := ab.col0
  let a1 := ab.col1
  let l :=
    (if nearEdge eps p.x a0 then [c.add a0] else [])
      ++ (if nearEdge eps (p.x - 1) a0 then [c.sub a0] else [])
      ++ (if nearEdge eps p.y a1 then [c.add a1] else [])
      ++ (if nearEdge eps (p.y - 1) a1 then [c.sub a1] else [])
  match l with
  | [v1, v2] => [v1, v2, (v1.add v2).sub c]
  | _ => l

/-- Collapse a Cartesian in-plane point to the base cell:
`ab @ (inv(ab) @ v % 1.0)`. -/
def collapse2 (ab : Mat2) (v : Vec2) : Vec2 :=
  ab.mulVec ((ab.inv.mulVec v).fract)

/-- The shared per-sublayer test of `isMirrorSymmetric` and
`isRotationSymmetric`: collapse the sublayer's Cartesian positions to
the base cell, apply the candidate operation `op` about `shift` (plus
the glide vector `extra`), collapse again, and require every
transformed point to be within `eps` of some original point or of one
of its periodic edge/corner images. `np.linalg.inv(ab)` raises
`LinAlgError` on a singular in-plane cell; an empty sublayer makes
`np.dot` raise `ValueError`. -/
def opSymmetricSublayer (ab : Mat2) (eps : ℚ) (op : Mat2)
    (shift extra : Vec2) (atoms : List Atom) : Except PyError Bool :=
  if ab.det = 0 then .error .linAlgError
  else if atoms.isEmpty then .error .valueError
  else
    let oripm := atoms.map fun a => (ab.inv.mulVec a.cartpos.xy).fract
    let oricm := oripm.map fun p => ab.mulVec p
    let tmpcoords := oricm.map fun c =>
      ((op.mulVec (c.sub shift)).add shift).add extra
    let collapsed := tmpcoords.map fun t => collapse2 ab t
    let aug := oricm ++ (oripm.zip oricm).flatMap fun pc =>
      addlist2 ab eps pc.1 pc.2
    .ok (collapsed.all fun t =>
      aug.any fun o => decide (Vec2.dist2 t o ≤ eps ^ 2))

/-- Run a per-sublayer check over all sublayers, returning `False` as
soon as one sublayer fails (the source returns from inside the loop)
and propagating the first exception. -/
def checkSublayers (f : List Atom → Except PyError Bool) :
    List PLayer → Except PyError Bool
  | [] => .ok true
  | l :: rest =>
    match f l.atlist with
    | .error e => .error e
    | .ok b => if b then checkSublayers f rest else .ok false

/-- `BaseSlab.isMirrorSymmetric(symplane, eps, glide)`: whether the
slab is equivalent to itself under the mirror (or glide) operation at
the given plane, checked sublayer by sublayer. Indexing an unset unit
cell raises `IndexError`. -/
def isMirrorSymmetric (sp : SymPlane) (eps : ℚ) (glide : Bool)
    (s : SlabCore) : Except PyError Bool :=
  match s.ucell with
  | none => .error .indexError
  | some U =>
    let ab := U.abBlock
    let glidev :=
      if glide then
        Vec2.smul (1/2) ((Vec2.smul sp.par.1 ab.col0).add
          (Vec2.smul sp.par.2 ab.col1))
      else ⟨0, 0⟩
    checkSublayers
      (opSymmetricSublayer ab eps (mirrorMatrix sp.dir) sp.pos glidev)
      s.sublayers

/-- `BaseSlab.isRotationSymmetric(axis, order, eps)`: whether the slab
is equivalent to itself under the order-fold rotation about `axis`,
checked sublayer by sublayer. The embedding takes the rotation matrix
`m = rotation_matrix_order(order)` directly (that helper of
`viperleed.tleedmlib.base` is not under `src/`; for order 2 it is -1).
Indexing an unset unit cell raises `IndexError`. -/
def isRotationSymmetric (m : Mat2) (axis : Vec2) (eps : ℚ)
    (s : SlabCore) : Except PyError Bool :=
  match s.ucell with
  | none => .error .indexError
  | some U =>
    checkSublayers (opSymmetricSublayer U.abBlock eps m axis ⟨0, 0⟩)
      s.sublayers

/-- The periodic-image augmentation of one collapsed 3D point for the
translation check: up to three independent periodic directions, with
2D corners adding the diagonally opposed point and 3D corners adding
all pairwise combinations and the triple one. -/
def addlist3 (uc : Mat3) (eps : ℚ) (p c : Vec3) : List Vec3 :=
  let u0 : Vec3 := ⟨uc.m00, uc.m10, uc.m20⟩
  let u1 : Vec3 := ⟨uc.m01, uc.m11, uc.m21⟩
  let u2 : Vec3 := ⟨uc.m02, uc.m12, uc.m22⟩
  let near := fun (comp : ℚ) (v : Vec3) =>
    decide (comp ^ 2 * v.norm2 < eps ^ 2)
  let l :=
    (if near p.x u0 then [c.add u0] else [])
      ++ (if near (p.x - 1) u0 then [c.sub u0] else [])
      ++ (if near p.y u1 then [c.add u1] else [])
      ++ (if near (p.y - 1) u1 then [c.sub u1] else [])
      ++ (if near p.z u2 then [c.add u2] else [])
      ++ (if near (p.z - 1) u2 then [c.sub u2] else [])
  match l with
  | [v1, v2] => [v1, v2, (v1.add v2).sub c]
  | [v1, v2, v3] =>
    [v1, v2, v3, (v1.add v2).sub c, (v1.add v3).sub c, (v2.add v3).sub c,
      ((v1.add v2).add v3).sub (c.add c)]
  | _ => l

/-- Collapse a 3D Cartesian point to the base cell using the
z-mirrored unit cell `uc`. -/
def collapse3 (uc : Mat3) (v : Vec3) : Vec3 :=
  uc.mulVec ((uc.inv.mulVec v).fract)

/-- Minimum of the z components of a nonempty point list. -/
def minZ (c : Vec3) (l : List Vec3) : ℚ := l.foldl (fun m v => min m v.z) c.z

/-- Maximum of the z components of a nonempty point list. -/
def maxZ (c : Vec3) (l : List Vec3) : ℚ := l.foldl (fun m v => max m v.z) c.z

/-- `BaseSlab.isTranslationSymmetric(tv, eps, z_periodic, z_range)`:
whether the slab maps to itself under the Cartesian translation `tv`
(a 2D caller passes `tv` with a zero z appended, as the source does).
The out-of-plane check of a and b runs first and raises
`InvalidUnitCellError`; then the c vector is mirrored down, all atom
coordinates are collapsed, translated (non-`z_periodic` slabs drop
atoms that left the `z_range` window), collapsed again, and compared
against the originals and their periodic images. -/
def isTranslationSymmetric (tv : Vec3) (eps : ℚ) (z_periodic : Bool)
    (z_range : Option (ℚ × ℚ)) (s : SlabCore) : Except PyError Bool :=
  match check_a_b_out_of_plane s with
  | .error e => .error e
  | .ok _ =>
    match s.ucell with
    | none => .error .indexError
    | some U =>
      let uc : Mat3 := ⟨U.m00, U.m01, -U.m02, U.m10, U.m11, -U.m12,
        U.m20, U.m21, -U.m22⟩
      if uc.det = 0 then .error .linAlgError
      else if s.atlist.isEmpty then .error .valueError
      else
        let shift : Vec3 := ⟨tv.x, tv.y, -tv.z⟩
        let oricm0 := s.atlist.map fun a =>
          (⟨a.cartpos.x, a.cartpos.y, -a.cartpos.z⟩ : Vec3)
        let oripm := oricm0.map fun c => (uc.inv.mulVec c).fract
        let oricm := oripm.map fun p => uc.mulVec p
        let bounds : ℚ × ℚ :=
          match z_range with
          | none =>
            (match oricm with
             | [] => (0 - eps, 0 + eps)
             | c :: rest => (minZ c rest - eps, maxZ c rest + eps))
          | some (za, zb) => (min (-za) (-zb) - eps, max (-za) (-zb) + eps)
        let shifted := oricm.map fun c => c.add shift
        let kept :=
          if z_periodic then shifted
          else shifted.filter fun c =>
            decide (bounds.1 ≤ c.z) && decide (c.z ≤ bounds.2)
        let collapsed := kept.map fun t => collapse3 uc t
        let aug := oricm ++ (oripm.zip oricm).flatMap fun pc =>
          addlist3 uc eps pc.1 pc.2
        .ok (collapsed.all fun t =>
          aug.any fun o => decide (Vec3.dist2 t o ≤ eps ^ 2))

/-- When the in-plane cell is invertible and the sublayer is not
empty, the per-sublayer symmetry test returns a boolean (no raise). -/
theorem opSymmetricSublayer_ok (ab : Mat2) (eps : ℚ) (op : Mat2)
    (sh ex : Vec2) (atoms : List Atom) (hdet : ab.det ≠ 0)
    (hne : atoms ≠ []) :
    ∃ b, opSymmetricSublayer ab eps op sh ex atoms = .ok b := by
  have hemp : atoms.isEmpty = false := by
    cases hl : atoms with
    | nil => exact absurd hl hne
    | cons a as => rfl
  unfold opSymmetricSublayer
  rw [if_neg hdet, if_neg (by rw [hemp]; simp)]
  exact ⟨_, rfl⟩

/-- If every sublayer test returns a boolean, so does the loop over
all sublayers. -/
theorem checkSublayers_ok (f : List Atom → Except PyError Bool) :
    ∀ ls : List PLayer, (∀ l ∈ ls, ∃ b, f l.atlist = .ok b) →
      ∃ b, checkSublayers f ls = .ok b := by
  intro ls
  induction ls with
  | nil => exact fun _ => ⟨true, rfl⟩
  | cons l rest ih =>
    intro h
    obtain ⟨b, hb⟩ := h l (List.mem_cons_self l rest)
    unfold checkSublayers
    rw [hb]
    cases b with
    | true =>
      obtain ⟨b2, hb2⟩ := ih fun l2 hl2 => h l2 (List.mem_cons_of_mem _ hl2)
      exact ⟨b2, by dsimp only; rw [if_pos rfl]; exact hb2⟩
    | false => exact ⟨false, by dsimp only; rw [if_neg Bool.false_ne_true]⟩

/-- Claim C1 (amended): on a slab whose a or b unit vector has a
nonzero out-of-plane (z) component, only `isTranslationSymmetric`
raises `InvalidUnitCellError` before any coordinate comparison;
`isMirrorSymmetric` and `isRotationSymmetric` perform no such check
and return a boolean (provided the in-plane 2×2 block is invertible
and no sublayer is empty, which is all their bodies need). -/
theorem symmetry_out_of_plane_check (s : SlabCore) (U : Mat3)
    (hU : s.ucell = some U) (hout : U.m20 ≠ 0 ∨ U.m21 ≠ 0)
    (hdet : U.abBlock.det ≠ 0)
    (hsub : ∀ l ∈ s.sublayers, l.atlist ≠ [])
    (tv : Vec3) (eps : ℚ) (zper : Bool) (zr : Option (ℚ × ℚ))
    (sp : SymPlane) (glide : Bool) (m : Mat2) (ax : Vec2) :
    isTranslationSymmetric tv eps zper zr s
        = .error (.slabError .invalidUnitCell) ∧
    (∃ b, isMirrorSymmetric sp eps glide s = .ok b) ∧
    (∃ b, isRotationSymmetric m ax eps s = .ok b) := by
  refine ⟨?_, ?_, ?_⟩
  · unfold isTranslationSymmetric check_a_b_out_of_plane
    rw [hU]
    dsimp only
    rw [if_pos hout]
  · unfold isMirrorSymmetric
    rw [hU]
    exact checkSublayers_ok _ s.sublayers fun l hl =>
      opSymmetricSublayer_ok _ eps _ _ _ _ hdet (hsub l hl)
  · unfold isRotationSymmetric
    rw [hU]
    exact checkSublayers_ok _ s.sublayers fun l hl =>
      opSymmetricSublayer_ok _ eps _ _ _ _ hdet (hsub l hl)

/-- A slab whose a vector has a nonzero z component (out-of-plane),
with one single-atom sublayer at the origin. -/
def cxSlab : SlabCore :=
  { ucell := some ⟨1, 0, 0, 0, 1, 0, 1, 0, 1⟩,
    atlist := [⟨"A", 1, ⟨0, 0, 0⟩, ⟨0, 0, 0⟩⟩],
    layers := [],
    sublayers := [⟨0, false, [⟨"A", 1, ⟨0, 0, 0⟩, ⟨0, 0, 0⟩⟩], none, none⟩],
    topat_ori_z := some 0, elements := ["A"], layers_initialized := true }

set_option maxRecDepth 10000 in
/-- Claim C1 (counterexample): on the out-of-plane slab `cxSlab`,
`isMirrorSymmetric` and `isRotationSymmetric` perform their coordinate
comparison and return the boolean `True` instead of raising
`InvalidUnitCellError`; only the translation test raises. -/
theorem mirror_skips_out_of_plane_check :
    isMirrorSymmetric ⟨⟨0, 0⟩, ⟨1, 0⟩, (0, 0)⟩ (1/1000) false cxSlab
      = .ok true ∧
    isRotationSymmetric ⟨-1, 0, 0, -1⟩ ⟨0, 0⟩ (1/1000) cxSlab
      = .ok true ∧
    isTranslationSymmetric ⟨0, 0, 0⟩ (1/1000) true none cxSlab
      = .error (.slabError .invalidUnitCell) := by
  have hsub : ∀ op : Mat2,
      opSymmetricSublayer ⟨1, 0, 0, 1⟩ (1/1000) op ⟨0, 0⟩ ⟨0, 0⟩
        [⟨"A", 1, ⟨0, 0, 0⟩, ⟨0, 0, 0⟩⟩] = .ok
          ((collapse2 ⟨1, 0, 0, 1⟩
              ((op.mulVec ((⟨0, 0⟩ : Vec2).sub ⟨0, 0⟩)).add ⟨0, 0⟩ |>.add
                ⟨0, 0⟩)).dist2 ⟨0, 0⟩ ≤ (1/1000 : ℚ) ^ 2 ∨
            (collapse2 ⟨1, 0, 0, 1⟩
              ((op.mulVec ((⟨0, 0⟩ : Vec2).sub ⟨0, 0⟩)).add ⟨0, 0⟩ |>.add
                ⟨0, 0⟩)).dist2 ⟨1, 0⟩ ≤ (1/1000 : ℚ) ^ 2 ∨
            (collapse2 ⟨1, 0, 0, 1⟩
              ((op.mulVec ((⟨0, 0⟩ : Vec2).sub ⟨0, 0⟩)).add ⟨0, 0⟩ |>.add
                ⟨0, 0⟩)).dist2 ⟨0, 1⟩ ≤ (1/1000 : ℚ) ^ 2 ∨
            (collapse2 ⟨1, 0, 0, 1⟩
              ((op.mulVec ((⟨0, 0⟩ : Vec2).sub ⟨0, 0⟩)).add ⟨0, 0⟩ |>.add
                ⟨0, 0⟩)).dist2 ⟨1, 1⟩ ≤ (1/1000 : ℚ) ^ 2) := by
    intro op
    unfold opSymmetricSublayer
    rw [if_neg (by norm_num [Mat2.det]), if_neg (by simp)]
    simp only [List.map_cons, List.map_nil, List.zip_cons_cons,
      List.zip_nil_right, List.flatMap_cons, List.flatMap_nil,
      List.append_nil, List.all_cons, List.all_nil, List.any_cons,
      List.any_nil, List.cons_append, List.nil_append, Except.ok.injEq]
    have hfr : ((Mat2.inv ⟨1, 0, 0, 1⟩).mulVec
        (Vec3.xy ⟨0, 0, 0⟩)).fract = (⟨0, 0⟩ : Vec2) := by
      norm_num [Mat2.inv, Mat2.det, Mat2.mulVec, Vec3.xy, Vec2.fract,
        Int.fract]
    rw [hfr]
    have hmv : (Mat2.mulVec ⟨1, 0, 0, 1⟩ ⟨0, 0⟩) = (⟨0, 0⟩ : Vec2) := by
      norm_num [Mat2.mulVec]
    rw [hmv]
    have hal : addlist2 ⟨1, 0, 0, 1⟩ (1/1000) ⟨0, 0⟩ ⟨0, 0⟩
        = [⟨1, 0⟩, ⟨0, 1⟩, ⟨1, 1⟩] := by
      norm_num [addlist2, nearEdge, Mat2.col0, Mat2.col1, Vec2.norm2,
        Vec2.add, Vec2.sub]
    rw [hal]
    simp only [List.any_cons, List.any_nil, List.all_cons, List.all_nil,
      Bool.and_true, Bool.or_false, decide_eq_true_eq]
    simp [Vec2.dist2, Bool.or_assoc]
  refine ⟨?_, ?_, ?_⟩
  · unfold isMirrorSymmetric
    dsimp only [cxSlab, Mat3.abBlock]
    rw [if_neg Bool.false_ne_true]
    unfold checkSublayers
    rw [hsub (mirrorMatrix ⟨1, 0⟩)]
    have : collapse2 ⟨1, 0, 0, 1⟩
        (((mirrorMatrix ⟨1, 0⟩).mulVec
          ((⟨0, 0⟩ : Vec2).sub ⟨0, 0⟩)).add ⟨0, 0⟩ |>.add ⟨0, 0⟩)
        = (⟨0, 0⟩ : Vec2) := by
      norm_num [mirrorMatrix, collapse2, Mat2.inv, Mat2.det, Mat2.mulVec,
        Vec2.fract, Vec2.add, Vec2.sub, Int.fract]
    rw [this]
    norm_num [Vec2.dist2, checkSublayers]
  · unfold isRotationSymmetric
    dsimp only [cxSlab, Mat3.abBlock]
    unfold checkSublayers
    rw [hsub ⟨-1, 0, 0, -1⟩]
    have : collapse2 ⟨1, 0, 0, 1⟩
        (((⟨-1, 0, 0, -1⟩ : Mat2).mulVec
          ((⟨0, 0⟩ : Vec2).sub ⟨0, 0⟩)).add ⟨0, 0⟩ |>.add ⟨0, 0⟩)
        = (⟨0, 0⟩ : Vec2) := by
      norm_num [collapse2, Mat2.inv, Mat2.det, Mat2.mulVec,
        Vec2.fract, Vec2.add, Vec2.sub, Int.fract]
    rw [this]
    norm_num [Vec2.dist2, checkSublayers]
  · unfold isTranslationSymmetric check_a_b_out_of_plane
    dsimp only [cxSlab]
    norm_num

/-- Claim C1 (witness for the amended theorem): evaluation on the
concrete out-of-plane slab `cxSlab`. -/
theorem symmetry_out_of_plane_check_witness :
    isTranslationSymmetric ⟨1, 0, 0⟩ (1/1000) false none cxSlab
        = .error (.slabError .invalidUnitCell) ∧
    (∃ b, isMirrorSymmetric ⟨⟨0, 0⟩, ⟨1, 0⟩, (0, 0)⟩ (1/1000) true cxSlab
      = .ok b) ∧
    (∃ b, isRotationSymmetric ⟨-1, 0, 0, -1⟩ ⟨0, 0⟩ (1/1000) cxSlab
      = .ok b) :=
  symmetry_out_of_plane_check cxSlab ⟨1, 0, 0, 0, 1, 0, 1, 0, 1⟩ rfl
    (Or.inl (by norm_num)) (by norm_num [Mat3.abBlock, Mat2.det])
    (by intro l hl
        simp only [cxSlab, List.mem_singleton] at hl
        subst hl
        simp)
    ⟨1, 0, 0⟩ (1/1000) false none ⟨⟨0, 0⟩, ⟨1, 0⟩, (0, 0)⟩ true
    ⟨-1, 0, 0, -1⟩ ⟨0, 0⟩

/-- `np.round` on a scalar: round half to even (banker's rounding). -/
def pyRound (q : ℚ) : ℤ :=
  let f := ⌊q⌋
  let r := q - f
  if r < 1/2 then f
  else if 1/2 < r then f + 1
  else if f % 2 = 0 then f else f + 1

/-- The while loop of `makeSupercell`: decrement the long-side diagonal
factor until it divides the supercell size
(`while transformSize / transformDiag[longSide] % 1 != 0`). A zero
divisor yields `inf % 1 = nan != 0` in the source, i.e. the loop also
keeps decrementing there; running out of fuel models the source's
non-termination for starting values below every divisor. -/
def decrementToDivisor (fuel : ℕ) (size : ℤ) : ℤ → ℤ
  | d =>
    match fuel with
    | 0 => d
    | fuel + 1 =>
      if d ≠ 0 ∧ d ∣ size then d else decrementToDivisor fuel size (d - 1)

/-- Modelled from the spec: `Atom.duplicate()` (the `Atom` class is not
under `src/`) creates a new atom record with the same element, number
and positions, appended to the slab's atom list; `makeSupercell` then
shifts its fractional x and y by the cell offsets i and j. -/
def dupAt (i j : ℕ) (a : Atom) : Atom :=
  { a with pos := ⟨a.pos.x + i, a.pos.y + j, a.pos.z⟩ }

/-- The duplicates of one atom across the `transformDiag[0] ×
transformDiag[1]` integer box, skipping (0, 0); Python's
`range(0, n)` is empty for `n ≤ 0`. -/
def supercellDups (d0 d1 : ℤ) (a : Atom) : List Atom :=
  (List.range d0.toNat).flatMap fun i =>
    (List.range d1.toNat).filterMap fun j =>
      if i = 0 ∧ j = 0 then none else some (dupAt i j a)

/-- `BaseSlab.sortOriginal`: sort atoms by original number. -/
def sortOriginal (c : SlabCore) : SlabCore :=
  { c with atlist := c.atlist.insertionSort fun a b => a.oriN ≤ b.oriN }

/-- Group a list of atoms into runs of consecutive equal elements
(the `tmpElList`/`isoLists` construction of `sort_by_element`). -/
def groupByEl : List Atom → List (String × List Atom)
  | [] => []
  | a :: rest =>
    match groupByEl rest with
    | [] => [(a.el, [a])]
    | (e, g) :: gs =>
      if a.el = e then (e, a :: g) :: gs else (a.el, [a]) :: (e, g) :: gs

/-- `BaseSlab.sort_by_element`: reorder the atom list by element,
following the element order from POSCAR (`self.elements`); atoms of an
element missing from that list are dropped with a logged error. -/
def sort_by_element (c : SlabCore) : SlabCore :=
  let esort := c.atlist.insertionSort fun a b => a.el ≤ b.el
  let groups := groupByEl esort
  { c with
    atlist := c.elements.flatMap fun el =>
      match groups.find? fun g => g.1 = el with
      | some g => g.2
      | none => [] }

/-- Assign 1-based original numbers in list order, starting at i+1
(the `for (i, at) in enumerate(...): at.oriN = i+1` loop). -/
def renumberFrom (i : ℕ) : List Atom → List Atom
  | [] => []
  | a :: rest => { a with oriN := i + 1 } :: renumberFrom (i + 1) rest

/-- The bulk side of `resetAtomOriN`: walking the surface atoms in
order, every not-yet-renumbered bulk atom sharing the (old) original
number receives the surface atom's new number, at most once each. -/
def bulkRenumber (i : ℕ) (ats : List Atom) (st : List (Atom × Bool)) :
    List (Atom × Bool) :=
  match ats with
  | [] => st
  | a :: rest =>
    bulkRenumber (i + 1) rest (st.map fun bm =>
      if ¬bm.2 ∧ bm.1.oriN = a.oriN
      then ({ bm.1 with oriN := i + 1 }, true) else bm)

/-- `BaseSlab.resetAtomOriN`: sort by original number then by element
and assign new 1-based original numbers; bulk-slab atoms carrying the
same (old) number are renumbered consistently, each at most once. -/
def resetAtomOriN (sl : Slab) : Slab :=
  let c := sort_by_element (sortOriginal sl.core)
  let renumbered := { c with atlist := renumberFrom 0 c.atlist }
  match sl.bulkslab with
  | none => ⟨renumbered, none⟩
  | some b =>
    let fin := bulkRenumber 0 c.atlist (b.atlist.map fun a => (a, false))
    ⟨renumbered, some { b with atlist := fin.map fun bm => bm.1 }⟩

/-- `BaseSlab.makeSupercell(transform)`: reject a non-integer matrix
with `ValueError`; otherwise duplicate every atom across the diagonal
factorization of `|det|` derived from `np.max(transform)`, renumber,
refresh Cartesian coordinates, right-multiply the unit cell by the
transposed 3×3 extension of the (rounded) transform, and recompute the
fractional and Cartesian coordinates of the copy. -/
def makeSupercell (t : Mat2) (sl : Slab) : Except PyError Slab :=
  if |((pyRound t.m00 : ℚ)) - t.m00| > 1/1000000 ∨
      |((pyRound t.m01 : ℚ)) - t.m01| > 1/1000000 ∨
      |((pyRound t.m10 : ℚ)) - t.m10| > 1/1000000 ∨
      |((pyRound t.m11 : ℚ)) - t.m11| > 1/1000000 then
    .error .valueError
  else
    let r00 := pyRound t.m00
    let r01 := pyRound t.m01
    let r10 := pyRound t.m10
    let r11 := pyRound t.m11
    let size : ℤ := (r00 * r11 - r01 * r10).natAbs
    let ts : Slab :=
      if 1 < size then
        let longSide : ℕ := if max r00 r10 > max r01 r11 then 0 else 1
        let dstart := max (max r00 r01) (max r10 r11)
        let dls := decrementToDivisor (dstart.natAbs + size.natAbs + 2)
          size dstart
        let dother : ℤ := Int.tdiv size dls
        let d0 : ℤ := if longSide = 0 then dls else dother
        let d1 : ℤ := if longSide = 0 then dother else dls
        ⟨{ sl.core with
            atlist := sl.core.atlist
              ++ sl.core.atlist.flatMap (supercellDups d0 d1) },
         sl.bulkslab⟩
      else sl
    let ts := resetAtomOriN ts
    match getCartesianCoordinates true ts.core with
    | .error e => .error e
    | .ok c1 =>
      match c1.ucell with
      | none => .error .valueError
      | some U =>
        let tm : Mat3 := ⟨(r00 : ℚ), (r01 : ℚ), 0, (r10 : ℚ), (r11 : ℚ),
          0, 0, 0, 1⟩
        let c2 := { c1 with ucell := some (U.mul tm.transpose) }
        match getFractionalCoordinates c2 with
        | .error e => .error e
        | .ok c3 =>
          match getCartesianCoordinates true c3 with
          | .error e => .error e
          | .ok c4 => .ok ⟨c4, ts.bulkslab⟩

/-- The slab produced by `makeSupercell([[-1,-1],[-1,-3]])` on the
one-atom slab `rtSlab`: the unit cell is doubled (|det| = 2) but no
atom was replicated. -/
def supBugResult : Slab :=
  ⟨{ rtSlab with
      ucell := some ⟨-2, -2, 0, -2, -6, 0, 0, 0, 4⟩,
      topat_ori_z := some 3,
      atlist := [⟨"A", 1, ⟨-5/8, 1/8, 3/4⟩, ⟨1, 1/2, 0⟩⟩] }, none⟩

set_option maxRecDepth 100000 in
set_option maxHeartbeats 2000000 in
/-- Claim C7 (failing input): for the integer matrix
M = [[-1,-1],[-1,-3]] with |det M| = 2 and the 1-atom slab `rtSlab`,
`makeSupercell(M)` returns a slab with 1 atom instead of the claimed
k·N = 2: with all entries negative, `np.max(transform)` is -1, the
diagonal factorization becomes (-2, -1), and both replication `range`s
are empty. -/
theorem makeSupercell_negative_matrix_bug :
    Mat2.det ⟨-1, -1, -1, -3⟩ = 2 ∧
    rtSlab.atlist.length = 1 ∧
    makeSupercell ⟨-1, -1, -1, -3⟩ ⟨rtSlab, none⟩ = .ok supBugResult ∧
    supBugResult.core.atlist.length = 1 := by
  refine ⟨by norm_num [Mat2.det], rfl, ?_, rfl⟩
  unfold makeSupercell
  rw [if_neg (by norm_num [pyRound])]
  norm_num [pyRound, decrementToDivisor, supercellDups, rtSlab,
    supBugResult, resetAtomOriN, sortOriginal, sort_by_element,
    groupByEl, renumberFrom, getCartesianCoordinates,
    getFractionalCoordinates, zsort, List.insertionSort,
    List.orderedInsert, Mat3.mulVec, Mat3.mul, Mat3.transpose, Mat3.det,
    Mat3.inv, show ((-2 : ℤ)).toNat = 0 from rfl,
    show ((-1 : ℤ)).toNat = 0 from rfl, List.range_zero,
    Int.tdiv]

/-- Append an atom to the last layer of a nonempty layer list
(`newlayer.atlist.append(atom)` — `newlayer` is always the most
recently created layer). -/
def appendToLast (a : Atom) : List PLayer → List PLayer
  | [] => []
  | [l] => [{ l with atlist := l.atlist ++ [a] }]
  | l :: l2 :: rest => l :: appendToLast a (l2 :: rest)

/-- The cutoff-crossing loop of `createLayers` for one atom: while the
atom's fractional z exceeds the next cutoff, advance `laynum` and
append a fresh layer numbered `laynum` with bulk flag
`N_BULK_LAYERS > laynum` (the outer `if` plus the inner `while` of the
source are one combined loop, both guarded by the same condition).
The fuel `ct.length - laynum` bounds the number of iterations. -/
def cutAdvance (ct : List ℚ) (nBulk : ℕ) (z : ℚ) :
    ℕ → ℕ × List PLayer → ℕ × List PLayer
  | 0, st => st
  | fuel + 1, (laynum, layers) =>
    match ct.get? laynum with
    | none => (laynum, layers)
    | some c =>
      if c < z then
        cutAdvance ct nBulk z fuel
          (laynum + 1,
           layers ++ [⟨laynum + 1, decide (laynum + 1 < nBulk), [], none,
             none⟩])
      else (laynum, layers)

/-- Process one atom of the z-sorted list: cross any pending cutoffs,
then put the atom into the most recent layer. -/
def placeAtom (ct : List ℚ) (nBulk : ℕ) (st : ℕ × List PLayer)
    (a : Atom) : ℕ × List PLayer :=
  let st2 := cutAdvance ct nBulk a.pos.z (ct.length - st.1) st
  (st2.1, appendToLast a st2.2)

/-- The bottom-to-top layer construction of `createLayers`: starting
from layer 0 (bulk flag `N_BULK_LAYERS > 0`), distribute the z-sorted
atoms over layers separated by the sorted cutoffs. -/
def buildLayers (ct : List ℚ) (nBulk : ℕ) (atoms : List Atom) :
    List PLayer :=
  (atoms.foldl (placeAtom ct nBulk)
    (0, [⟨0, decide (0 < nBulk), [], none, none⟩])).2

/-- The empty-layer removal loop of `createLayers`: for each recorded
empty layer (by construction number, in list order), a bulk flag is
pushed onto the element at position `num + 1` of the *current*,
already-shifted list (`self.layers[layer.num+1]` — `IndexError` when
that position fell off the end), and the layer is removed. -/
def absorbRemove : List PLayer → List ℕ → Except PyError (List PLayer)
  | layers, [] => .ok layers
  | layers, n :: ns =>
    let d := (layers.find? fun x => x.num == n).getD ⟨n, false, [], none,
      none⟩
    if d.isBulk then
      match layers.get? (n + 1) with
      | none => .error .indexError
      | some l =>
        absorbRemove
          ((layers.set (n + 1) { l with isBulk := true }).eraseP
            fun x => x.num == n) ns
    else absorbRemove (layers.eraseP fun x => x.num == n) ns

/-- `Layer.getLayerPos` (named `update_position` in the refactored
`layer.py`): cache the layer's bottom Cartesian z and its origin — the
intersection of the plane through the topmost atom with the c vector —
raising `LayerHasNoAtomsError` on an empty layer. -/
def getLayerPos (U : Mat3) (l : PLayer) : Except PyError PLayer :=
  match l.atlist.insertionSort (fun a b => a.pos.z ≤ b.pos.z) with
  | [] => .error .layerHasNoAtoms
  | botat :: rest =>
    let topat := (botat :: rest).getLast (List.cons_ne_nil _ _)
    .ok { l with
      cartbotz := some botat.cartpos.z,
      cartori := some ⟨topat.pos.z * U.m02, topat.pos.z * U.m12,
        topat.cartpos.z⟩ }

/-- The final renumbering pass of `createLayers`: recompute each
layer's cached position and assign top-down indices `0..L-1`. -/
def renumberLayers (U : Mat3) : ℕ → List PLayer →
    Except PyError (List PLayer)
  | _, [] => .ok []
  | i, l :: rest =>
    match getLayerPos U l with
    | .error e => .error e
    | .ok l2 =>
      match renumberLayers U (i + 1) rest with
      | .error e => .error e
      | .ok rs => .ok ({ l2 with num := i } :: rs)

/-- `BaseSlab.createLayers(rparams, bulk_cuts=[])` for a non-bulk slab
whose `LAYER_CUTS` are plain floats (the `dz`/`dc` string branches are
then skipped and `ct` is just the sorted float list) and with no
externally supplied bulk cuts. After the out-of-plane check, the
z-sorted atoms are distributed bottom-to-top, empty layers are removed
with their bulk flag pushed to the list neighbour, the layer order is
reversed so index 0 is the topmost layer, cached layer positions are
recomputed, the original atom order is restored (our embedding never
reorders `atlist`), and the effective sorted cutoff list is returned. -/
def createLayers (cuts : List ℚ) (nBulk : ℕ) (s : SlabCore) :
    Except PyError (SlabCore × List ℚ) :=
  match s.ucell with
  | none => .error .indexError
  | some U =>
    if U.m20 ≠ 0 ∨ U.m21 ≠ 0 then .error (.slabError .invalidUnitCell)
    else
      let ct := cuts.insertionSort (fun a b => a ≤ b)
      let constructed := buildLayers ct nBulk (zsort s.atlist)
      let dl := (constructed.filter fun l => l.atlist.isEmpty).map
        fun l => l.num
      match absorbRemove constructed dl with
      | .error e => .error e
      | .ok kept =>
        match renumberLayers U 0 kept.reverse with
        | .error e => .error e
        | .ok final =>
          .ok ({ s with layers := final, layers_initialized := true }, ct)

/-- The z-ordering relation between whole layers: every atom of the
first sits at or below every atom of the second. -/
def layerLE (l1 l2 : PLayer) : Prop :=
  ∀ a ∈ l1.atlist, ∀ b ∈ l2.atlist, a.pos.z ≤ b.pos.z

/-- `appendToLast` rewrites the last layer only, appending the atom to
its atom list. -/
theorem appendToLast_eq (a : Atom) :
    ∀ (ls : List PLayer) (h : ls ≠ []),
      appendToLast a ls = ls.dropLast
        ++ [{ ls.getLast h with
              atlist := (ls.getLast h).atlist ++ [a] }] := by
  intro ls
  induction ls with
  | nil => intro h; exact absurd rfl h
  | cons l tail ih =>
    intro _
    cases tail with
    | nil => rfl
    | cons l2 t2 =>
      show l :: appendToLast a (l2 :: t2) = _
      rw [ih (List.cons_ne_nil _ _)]
      rfl

/-- `appendToLast` keeps the number of layers. -/
theorem appendToLast_length (a : Atom) (ls : List PLayer) (h : ls ≠ []) :
    (appendToLast a ls).length = ls.length := by
  rw [appendToLast_eq a ls h]
  rw [List.length_append, List.length_dropLast]
  have := List.length_pos.mpr h
  simp only [List.length_singleton]
  omega

/-- `appendToLast` keeps the layer numbers. -/
theorem appendToLast_map_num (a : Atom) (ls : List PLayer) (h : ls ≠ []) :
    (appendToLast a ls).map (fun l => l.num) = ls.map fun l => l.num := by
  rw [appendToLast_eq a ls h]
  conv_rhs => rw [← List.dropLast_append_getLast h]
  simp

/-- `appendToLast` keeps the bulk flags (paired with the numbers). -/
theorem appendToLast_map_bulk (a : Atom) (ls : List PLayer)
    (h : ls ≠ []) :
    (appendToLast a ls).map (fun l => (l.num, l.isBulk))
      = ls.map fun l => (l.num, l.isBulk) := by
  rw [appendToLast_eq a ls h]
  conv_rhs => rw [← List.dropLast_append_getLast h]
  simp

/-- `appendToLast` appends the atom at the end of the concatenated
atom lists. -/
theorem appendToLast_join (a : Atom) (ls : List PLayer) (h : ls ≠ []) :
    ((appendToLast a ls).map (fun l => l.atlist)).flatten
      = ((ls.map fun l => l.atlist).flatten) ++ [a] := by
  rw [appendToLast_eq a ls h]
  conv_rhs => rw [← List.dropLast_append_getLast h]
  simp

/-- The last layer of `appendToLast` contains the new atom. -/
theorem appendToLast_getLast (a : Atom) (ls : List PLayer) (h : ls ≠ []) :
    (appendToLast a ls).getLast? = some
      { ls.getLast h with atlist := (ls.getLast h).atlist ++ [a] } := by
  rw [appendToLast_eq a ls h]
  simp

/-- `appendToLast` preserves the layer z-ordering when the new atom
sits at or above every atom already placed. -/
theorem appendToLast_pairwise (a : Atom) (ls : List PLayer) (h : ls ≠ [])
    (hp : List.Pairwise layerLE ls)
    (ha : ∀ b ∈ (ls.map fun l => l.atlist).flatten, b.pos.z ≤ a.pos.z) :
    List.Pairwise layerLE (appendToLast a ls) := by
  rw [appendToLast_eq a ls h]
  have hsplit : ls = ls.dropLast ++ [ls.getLast h] :=
    (List.dropLast_append_getLast h).symm
  rw [hsplit] at hp ha
  rw [List.pairwise_append] at hp ⊢
  refine ⟨hp.1, List.pairwise_singleton _ _, ?_⟩
  intro x hx y hy
  simp only [List.mem_singleton] at hy
  subst hy
  intro p hp2 q hq
  simp only [List.append_eq] at hq
  rw [List.mem_append] at hq
  cases hq with
  | inl hq =>
    exact hp.2.2 x hx _ (List.mem_singleton_self _) p hp2 q hq
  | inr hq =>
    rw [List.mem_singleton] at hq
    subst hq
    apply ha
    rw [List.map_append, List.flatten_append]
    exact List.mem_append.mpr (Or.inl (List.mem_flatten.mpr
      ⟨x.atlist, List.mem_map.mpr ⟨x, hx, rfl⟩, hp2⟩))

/-- Invariant of the layer-construction fold: the layer counter
matches the number of layers, layer numbers are `0..L-1` in order,
bulk flags follow `N_BULK_LAYERS > num`, the counter never exceeds the
cutoff count, the concatenated layer contents are exactly the atoms
placed so far in order, layers are z-ordered blocks, and once an atom
was placed the most recent layer is nonempty. -/
def BuildInv (ct : List ℚ) (nBulk : ℕ) (done : List Atom)
    (st : ℕ × List PLayer) : Prop :=
  st.1 + 1 = st.2.length ∧
  st.2.map (fun l => l.num) = List.range st.2.length ∧
  (∀ l ∈ st.2, l.isBulk = decide (l.num < nBulk)) ∧
  st.1 ≤ ct.length ∧
  (st.2.map (fun l => l.atlist)).flatten = done ∧
  List.Pairwise layerLE st.2 ∧
  (done ≠ [] → ∃ ll, st.2.getLast? = some ll ∧ ll.atlist ≠ [])

/-- Layers whose atom lists are all empty are vacuously z-ordered. -/
theorem pairwise_of_empty_atlists (news : List PLayer)
    (h : ∀ l ∈ news, l.atlist = []) : List.Pairwise layerLE news := by
  induction news with
  | nil => exact List.Pairwise.nil
  | cons n rest ih =>
    refine List.Pairwise.cons ?_ (ih fun l hl => h l (List.mem_cons_of_mem _ hl))
    intro m _ a ha
    rw [h n (List.mem_cons_self _ _)] at ha
    cases ha

/-- The cutoff-crossing loop only appends fresh empty layers, with
consecutive numbers and matching bulk flags, and keeps the counter
within the cutoff count. -/
theorem cutAdvance_spec (ct : List ℚ) (nBulk : ℕ) (z : ℚ) :
    ∀ (fuel laynum : ℕ) (layers : List PLayer),
      laynum + 1 = layers.length →
      layers.map (fun l => l.num) = List.range layers.length →
      (∀ l ∈ layers, l.isBulk = decide (l.num < nBulk)) →
      laynum ≤ ct.length →
      (cutAdvance ct nBulk z fuel (laynum, layers)).1 + 1
          = (cutAdvance ct nBulk z fuel (laynum, layers)).2.length ∧
      (cutAdvance ct nBulk z fuel (laynum, layers)).2.map (fun l => l.num)
          = List.range (cutAdvance ct nBulk z fuel (laynum, layers)).2.length ∧
      (∀ l ∈ (cutAdvance ct nBulk z fuel (laynum, layers)).2,
        l.isBulk = decide (l.num < nBulk)) ∧
      (cutAdvance ct nBulk z fuel (laynum, layers)).1 ≤ ct.length ∧
      ∃ news, (cutAdvance ct nBulk z fuel (laynum, layers)).2
          = layers ++ news ∧ ∀ l ∈ news, l.atlist = [] := by
  intro fuel
  induction fuel with
  | zero =>
    intro laynum layers h1 h2 h3 h4
    exact ⟨h1, h2, h3, h4, [], (List.append_nil _).symm, fun l hl => by cases hl⟩
  | succ fuel ih =>
    intro laynum layers h1 h2 h3 h4
    simp only [cutAdvance]
    cases hg : ct.get? laynum with
    | none =>
      exact ⟨h1, h2, h3, h4, [], (List.append_nil _).symm,
        fun l hl => by cases hl⟩
    | some c =>
      dsimp only
      by_cases hc : c < z
      · rw [if_pos hc]
        have hlt : laynum < ct.length := by
          have := List.get?_eq_some.mp hg
          exact this.1
        have h1' : (laynum + 1) + 1
            = (layers ++ [(⟨laynum + 1, decide (laynum + 1 < nBulk), [],
              none, none⟩ : PLayer)]).length := by
          rw [List.length_append]
          simp only [List.length_singleton]
          omega
        have h2' : (layers ++ [(⟨laynum + 1, decide (laynum + 1 < nBulk),
            [], none, none⟩ : PLayer)]).map (fun l => l.num)
            = List.range (layers ++ [(⟨laynum + 1,
              decide (laynum + 1 < nBulk), [], none, none⟩ :
                PLayer)]).length := by
          rw [List.map_append, List.length_append]
          simp only [List.map_cons, List.map_nil, List.length_singleton]
          rw [h2, ← h1]
          simp [List.range_succ, List.append_assoc]
        have h3' : ∀ l ∈ layers ++ [(⟨laynum + 1,
            decide (laynum + 1 < nBulk), [], none, none⟩ : PLayer)],
            l.isBulk = decide (l.num < nBulk) := by
          intro l hl
          rw [List.mem_append] at hl
          cases hl with
          | inl hl => exact h3 l hl
          | inr hl =>
            rw [List.mem_singleton] at hl
            subst hl
            rfl
        obtain ⟨c1, c2, c3, c4, news, hnews, hempty⟩ :=
          ih (laynum + 1) _ h1' h2' h3' hlt
        refine ⟨c1, c2, c3, c4,
          [(⟨laynum + 1, decide (laynum + 1 < nBulk), [], none, none⟩ :
            PLayer)] ++ news, ?_, ?_⟩
        · rw [hnews, List.append_assoc]
        · intro l hl
          rw [List.mem_append] at hl
          cases hl with
          | inl hl => rw [List.mem_singleton] at hl; subst hl; rfl
          | inr hl => exact hempty l hl
      · rw [if_neg hc]
        exact ⟨h1, h2, h3, h4, [], (List.append_nil _).symm,
          fun l hl => by cases hl⟩

/-- Placing one atom whose z is at or above everything placed so far
preserves the construction invariant, with the atom appended to the
placement record. -/
theorem placeAtom_inv (ct : List ℚ) (nBulk : ℕ) (done : List Atom)
    (a : Atom) (st : ℕ × List PLayer)
    (hinv : BuildInv ct nBulk done st)
    (ha : ∀ b ∈ done, b.pos.z ≤ a.pos.z) :
    BuildInv ct nBulk (done ++ [a]) (placeAtom ct nBulk st a) := by
  obtain ⟨h1, h2, h3, h4, h5, h6, -⟩ := hinv
  obtain ⟨c1, c2, c3, c4, news, hnews, hempty⟩ :=
    cutAdvance_spec ct nBulk a.pos.z (ct.length - st.1) st.1 st.2 h1 h2 h3 h4
  set st2 := cutAdvance ct nBulk a.pos.z (ct.length - st.1) (st.1, st.2)
    with hst2
  have hne : st2.2 ≠ [] := by
    intro hz
    rw [hz] at c1
    cases c1
  have hflat : (st2.2.map (fun l => l.atlist)).flatten = done := by
    rw [hnews, List.map_append, List.flatten_append, h5]
    have : (news.map (fun l => l.atlist)).flatten = [] := by
      rw [List.flatten_eq_nil_iff]
      intro x hx
      obtain ⟨l, hl, rfl⟩ := List.mem_map.mp hx
      exact hempty l hl
    rw [this, List.append_nil]
  have hpair2 : List.Pairwise layerLE st2.2 := by
    rw [hnews, List.pairwise_append]
    refine ⟨h6, pairwise_of_empty_atlists news hempty, ?_⟩
    intro x _ y hy p _ q hq
    rw [hempty y hy] at hq
    cases hq
  have hdone2 : ∀ b ∈ (st2.2.map (fun l => l.atlist)).flatten,
      b.pos.z ≤ a.pos.z := by
    rw [hflat]
    exact ha
  refine ⟨?_, ?_, ?_, c4, ?_, ?_, ?_⟩
  · show st2.1 + 1 = (appendToLast a st2.2).length
    rw [appendToLast_length a st2.2 hne]
    exact c1
  · show (appendToLast a st2.2).map (fun l => l.num)
        = List.range (appendToLast a st2.2).length
    rw [appendToLast_map_num a st2.2 hne, appendToLast_length a st2.2 hne]
    exact c2
  · show ∀ l ∈ appendToLast a st2.2, l.isBulk = decide (l.num < nBulk)
    intro l hl
    have hmem : (l.num, l.isBulk)
        ∈ (appendToLast a st2.2).map fun l => (l.num, l.isBulk) :=
      List.mem_map_of_mem _ hl
    rw [appendToLast_map_bulk a st2.2 hne] at hmem
    obtain ⟨l', hl', heq⟩ := List.mem_map.mp hmem
    have hn : l'.num = l.num := congrArg Prod.fst heq
    have hb : l'.isBulk = l.isBulk := congrArg Prod.snd heq
    rw [← hb, ← hn]
    exact c3 l' hl'
  · show ((appendToLast a st2.2).map (fun l => l.atlist)).flatten
        = done ++ [a]
    rw [appendToLast_join a st2.2 hne, hflat]
  · exact appendToLast_pairwise a st2.2 hne hpair2 hdone2
  · intro _
    refine ⟨_, appendToLast_getLast a st2.2 hne, ?_⟩
    simp

/-- Folding the atom placement over a z-sorted list preserves the
construction invariant. -/
theorem buildFold_inv (ct : List ℚ) (nBulk : ℕ) :
    ∀ (atoms done : List Atom) (st : ℕ × List PLayer),
      List.Pairwise (fun a b : Atom => a.pos.z ≤ b.pos.z) (done ++ atoms) →
      BuildInv ct nBulk done st →
      BuildInv ct nBulk (done ++ atoms)
        (atoms.foldl (placeAtom ct nBulk) st) := by
  intro atoms
  induction atoms with
  | nil => intro done st _ h; simpa using h
  | cons a rest ih =>
    intro done st hsort hinv
    have ha : ∀ b ∈ done, b.pos.z ≤ a.pos.z := by
      rw [List.pairwise_append] at hsort
      exact fun b hb => hsort.2.2 b hb a (List.mem_cons_self _ _)
    have h2 := placeAtom_inv ct nBulk done a st hinv ha
    have hsort2 : List.Pairwise (fun a b : Atom => a.pos.z ≤ b.pos.z)
        ((done ++ [a]) ++ rest) := by
      rw [List.append_assoc]
      exact hsort
    have hres := ih (done ++ [a]) (placeAtom ct nBulk st a) hsort2 h2
    rw [List.append_assoc] at hres
    exact hres

/-- `getLayerPos` succeeds on a nonempty layer and only updates the
cached position fields, leaving the atom list unchanged. -/
theorem getLayerPos_ok (U : Mat3) (l : PLayer) (h : l.atlist ≠ []) :
    ∃ l2, getLayerPos U l = .ok l2 ∧ l2.atlist = l.atlist := by
  cases hs : l.atlist.insertionSort (fun a b => a.pos.z ≤ b.pos.z) with
  | nil =>
    have hp := List.perm_insertionSort
      (fun a b : Atom => a.pos.z ≤ b.pos.z) l.atlist
    rw [hs] at hp
    exact absurd hp.symm.eq_nil h
  | cons b rest =>
    refine ⟨{ l with
      cartbotz := some b.cartpos.z,
      cartori := some
        ⟨((b :: rest).getLast (List.cons_ne_nil _ _)).pos.z * U.m02,
         ((b :: rest).getLast (List.cons_ne_nil _ _)).pos.z * U.m12,
         ((b :: rest).getLast (List.cons_ne_nil _ _)).cartpos.z⟩ },
      ?_, rfl⟩
    simp only [getLayerPos]
    rw [hs]

/-- The renumbering pass succeeds on a list of nonempty layers,
preserves every layer's atom list, and overwrites the layer numbers
with consecutive indices starting at `i`. -/
theorem renumberLayers_ok (U : Mat3) :
    ∀ (ls : List PLayer) (i : ℕ), (∀ l ∈ ls, l.atlist ≠ []) →
      ∃ rs, renumberLayers U i ls = .ok rs ∧
        rs.map (fun l => l.atlist) = ls.map (fun l => l.atlist) ∧
        rs.map (fun l => l.num) = List.range' i ls.length := by
  intro ls
  induction ls with
  | nil => intro i _; exact ⟨[], rfl, rfl, rfl⟩
  | cons l rest ih =>
    intro i hne
    obtain ⟨l2, hl2, ha⟩ :=
      getLayerPos_ok U l (hne l (List.mem_cons_self _ _))
    obtain ⟨rs, hrs, hra, hrn⟩ :=
      ih (i + 1) (fun x hx => hne x (List.mem_cons_of_mem _ hx))
    refine ⟨{ l2 with num := i } :: rs, ?_, ?_, ?_⟩
    · simp only [renumberLayers]
      rw [hl2]
      dsimp only
      rw [hrs]
    · simp only [List.map_cons, hra]
      congr 1
    · simp only [List.map_cons, hrn, List.length_cons]
      rw [List.range'_succ]

/-- Claim C4 (amended): for a slab with at least one atom, in-plane a
and b vectors, and any cutoff list, provided every constructed layer
receives at least one atom, `createLayers` terminates normally; the
concatenation of the final layers' atom lists is a permutation of the
slab's atoms (every atom belongs to exactly one layer), layer indices
are contiguous `0..L-1`, index 0 is the topmost layer (every atom of
an earlier layer sits at or above every atom of a later one), and the
effective sorted cutoff list is returned. Without the nonemptiness
proviso the empty-layer removal loop can crash (see the
counterexample). -/
theorem createLayers_partition (cuts : List ℚ) (nBulk : ℕ) (s : SlabCore)
    (U : Mat3) (hU : s.ucell = some U) (hm20 : U.m20 = 0)
    (hm21 : U.m21 = 0) (hatoms : s.atlist ≠ [])
    (hfull : ∀ l ∈ buildLayers (cuts.insertionSort fun a b => a ≤ b)
      nBulk (zsort s.atlist), l.atlist ≠ []) :
    ∃ final,
      createLayers cuts nBulk s
          = .ok ({ s with layers := final, layers_initialized := true },
              cuts.insertionSort fun a b => a ≤ b) ∧
      List.Perm ((final.map fun l => l.atlist).flatten) s.atlist ∧
      final.map (fun l => l.num) = List.range final.length ∧
      final ≠ [] ∧
      List.Pairwise
        (fun xs ys => ∀ a ∈ xs, ∀ b ∈ ys, b.pos.z ≤ a.pos.z)
        (final.map fun l => l.atlist) ∧
      List.Pairwise (fun a b : ℚ => a ≤ b)
        (cuts.insertionSort fun a b => a ≤ b) := by
  have hzsorted : List.Pairwise (fun a b : Atom => a.pos.z ≤ b.pos.z)
      (zsort s.atlist) := by
    haveI : IsTotal Atom fun a b => a.pos.z ≤ b.pos.z :=
      ⟨fun a b => le_total _ _⟩
    haveI : IsTrans Atom fun a b => a.pos.z ≤ b.pos.z :=
      ⟨fun a b c hab hbc => le_trans hab hbc⟩
    exact List.sorted_insertionSort _ _
  have h0 : BuildInv (cuts.insertionSort fun a b => a ≤ b) nBulk []
      (0, [⟨0, decide (0 < nBulk), [], none, none⟩]) := by
    refine ⟨rfl, rfl, ?_, Nat.zero_le _, rfl,
      List.pairwise_singleton _ _, fun h => absurd rfl h⟩
    intro l hl
    rw [List.mem_singleton] at hl
    subst hl
    rfl
  have hinv := buildFold_inv (cuts.insertionSort fun a b => a ≤ b) nBulk
    (zsort s.atlist) [] (0, [⟨0, decide (0 < nBulk), [], none, none⟩])
    (by simpa using hzsorted) h0
  simp only [List.nil_append] at hinv
  obtain ⟨-, -, -, -, hflat, hpair, -⟩ := hinv
  have hflat' : ((buildLayers (cuts.insertionSort fun a b => a ≤ b)
      nBulk (zsort s.atlist)).map fun l => l.atlist).flatten
      = zsort s.atlist := hflat
  have hpair' : List.Pairwise layerLE
      (buildLayers (cuts.insertionSort fun a b => a ≤ b) nBulk
        (zsort s.atlist)) := hpair
  have hallne : ∀ l ∈ (buildLayers (cuts.insertionSort fun a b => a ≤ b)
      nBulk (zsort s.atlist)).reverse, l.atlist ≠ [] := by
    intro l hl
    exact hfull l (List.mem_reverse.mp hl)
  obtain ⟨rs, hrs, hratl, hrnum⟩ := renumberLayers_ok U
    (buildLayers (cuts.insertionSort fun a b => a ≤ b) nBulk
      (zsort s.atlist)).reverse 0 hallne
  have hfilter : ((buildLayers (cuts.insertionSort fun a b => a ≤ b)
      nBulk (zsort s.atlist)).filter fun l => l.atlist.isEmpty) = [] := by
    rw [List.filter_eq_nil_iff]
    intro l hl hemp
    exact hfull l hl (List.isEmpty_iff.mp hemp)
  have hlen : rs.length = (buildLayers
      (cuts.insertionSort fun a b => a ≤ b) nBulk
        (zsort s.atlist)).reverse.length := by
    have := congrArg List.length hratl
    simpa using this
  refine ⟨rs, ?_, ?_, ?_, ?_, ?_, List.sorted_insertionSort _ _⟩
  · simp only [createLayers, hU]
    rw [if_neg (by push_neg; exact ⟨hm20, hm21⟩)]
    rw [hfilter]
    rw [List.map_nil]
    simp only [absorbRemove]
    rw [hrs]
  · rw [hratl, List.map_reverse]
    have h1 : (((buildLayers (cuts.insertionSort fun a b => a ≤ b) nBulk
        (zsort s.atlist)).map fun l => l.atlist).reverse).flatten.Perm
        (((buildLayers (cuts.insertionSort fun a b => a ≤ b) nBulk
          (zsort s.atlist)).map fun l => l.atlist)).flatten :=
      (List.reverse_perm _).flatten
    rw [hflat'] at h1
    exact h1.trans (List.perm_insertionSort _ _)
  · rw [hrnum, hlen, List.range_eq_range']
  · intro hz
    rw [hz] at hlen
    have hrev : (buildLayers (cuts.insertionSort fun a b => a ≤ b) nBulk
        (zsort s.atlist)).reverse = [] :=
      List.length_eq_zero.mp hlen.symm
    have hC : buildLayers (cuts.insertionSort fun a b => a ≤ b) nBulk
        (zsort s.atlist) = [] := by
      rw [← List.reverse_reverse (buildLayers _ _ _), hrev]
      rfl
    rw [hC] at hflat'
    exact zsort_ne_nil hatoms hflat'.symm
  · rw [hratl, List.map_reverse, List.pairwise_reverse, List.pairwise_map]
    exact hpair'.imp fun h a ha b hb => h b hb a ha

/-- A slab whose single atom sits above both cutoffs, so that two
consecutive constructed layers stay empty. -/
def crashSlab : SlabCore :=
  { ucell := some ⟨1, 0, 0, 0, 1, 0, 0, 0, 1⟩,
    atlist := [⟨"A", 1, ⟨0, 0, 9/10⟩, ⟨0, 0, 0⟩⟩],
    layers := [], sublayers := [], topat_ori_z := some 0,
    elements := ["A"], layers_initialized := false }

set_option maxRecDepth 10000 in
/-- Claim C4 (counterexample): on a slab with one atom and the sorted
cutoff list `[1/10, 1/5]` with two bulk layers, `createLayers` does not
terminate normally: the two layers below the atom are empty, and the
removal loop's `self.layers[layer.num+1]` — a positional index into
the already-shortened list — falls off the end, raising `IndexError`. -/
theorem createLayers_adjacent_empty_crash :
    crashSlab.atlist.length = 1 ∧
    List.Pairwise (fun a b : ℚ => a ≤ b) [1/10, 1/5] ∧
    createLayers [1/10, 1/5] 2 crashSlab = .error .indexError := by
  refine ⟨rfl, by norm_num, ?_⟩
  norm_num [createLayers, crashSlab, buildLayers, placeAtom, cutAdvance,
    appendToLast, zsort, absorbRemove, renumberLayers, getLayerPos,
    List.insertionSort, List.orderedInsert, List.find?, List.eraseP]

/-- A two-atom slab with one cutoff between the atoms: both constructed
layers receive an atom. -/
def layerSlab : SlabCore :=
  { ucell := some ⟨1, 0, 0, 0, 1, 0, 0, 0, 1⟩,
    atlist := [⟨"A", 1, ⟨0, 0, 1/4⟩, ⟨0, 0, 0⟩⟩,
               ⟨"A", 2, ⟨0, 0, 3/4⟩, ⟨0, 0, 0⟩⟩],
    layers := [], sublayers := [], topat_ori_z := some 0,
    elements := ["A"], layers_initialized := false }

set_option maxRecDepth 10000 in
/-- Claim C4 (witness): the amended layering theorem evaluated on the
two-atom slab with the single cutoff `[1/2]` and one bulk layer. -/
theorem createLayers_partition_witness :
    layerSlab.atlist ≠ [] ∧
    (∀ l ∈ buildLayers (([(1:ℚ)/2]).insertionSort fun a b => a ≤ b) 1
      (zsort layerSlab.atlist), l.atlist ≠ []) ∧
    ∃ final,
      createLayers [(1:ℚ)/2] 1 layerSlab
          = .ok ({ layerSlab with
                layers := final, layers_initialized := true },
              ([(1:ℚ)/2]).insertionSort fun a b => a ≤ b) ∧
      List.Perm ((final.map fun l => l.atlist).flatten)
        layerSlab.atlist ∧
      final.map (fun l => l.num) = List.range final.length ∧
      final ≠ [] ∧
      List.Pairwise
        (fun xs ys => ∀ a ∈ xs, ∀ b ∈ ys, b.pos.z ≤ a.pos.z)
        (final.map fun l => l.atlist) ∧
      List.Pairwise (fun a b : ℚ => a ≤ b)
        (([(1:ℚ)/2]).insertionSort fun a b => a ≤ b) := by
  have hfull : ∀ l ∈ buildLayers
      (([(1:ℚ)/2]).insertionSort fun a b => a ≤ b) 1
      (zsort layerSlab.atlist), l.atlist ≠ [] := by
    have hb : buildLayers (([(1:ℚ)/2]).insertionSort fun a b => a ≤ b) 1
        (zsort layerSlab.atlist)
        = [⟨0, true, [⟨"A", 1, ⟨0, 0, 1/4⟩, ⟨0, 0, 0⟩⟩], none, none⟩,
           ⟨1, false, [⟨"A", 2, ⟨0, 0, 3/4⟩, ⟨0, 0, 0⟩⟩], none, none⟩] := by
      norm_num [buildLayers, placeAtom, cutAdvance, appendToLast, zsort,
        layerSlab, List.insertionSort, List.orderedInsert]
    rw [hb]
    intro l hl
    rw [List.mem_cons, List.mem_singleton] at hl
    rcases hl with rfl | rfl
    · exact List.cons_ne_nil _ _
    · exact List.cons_ne_nil _ _
  refine ⟨List.cons_ne_nil _ _, hfull, ?_⟩
  exact createLayers_partition [(1:ℚ)/2] 1 layerSlab
    ⟨1, 0, 0, 0, 1, 0, 0, 0, 1⟩ rfl rfl rfl (List.cons_ne_nil _ _) hfull

/-- `BaseSlab.projectCToZ`: when c has an in-plane component, refresh
Cartesian coordinates, make c perpendicular to the surface keeping its
z length, and collapse the Cartesian coordinates to the new base. -/
def projectCToZ (s : SlabCore) : Except PyError SlabCore :=
  match s.ucell with
  | none => .error .indexError
  | some U =>
    if U.m02 ≠ 0 ∨ U.m12 ≠ 0 then
      match getCartesianCoordinates false s with
      | .error e => .error e
      | .ok s1 =>
        collapseCartesianCoordinates false
          { s1 with ucell := some ⟨U.m00, U.m01, 0, U.m10, U.m11, 0,
              U.m20, U.m21, U.m22⟩ }
    else .ok s

/-- Index `j` of the first z-sorted pair `(j-1, j)` whose Cartesian
z gap exceeds `eps` (the `for j in range(1, len(tmplist))` scan of
`createSublayers`). -/
def findGap (eps : ℚ) (li : List Atom) : Option ℕ :=
  ((li.zip li.tail).findIdx? fun p =>
    decide (eps < |p.2.cartpos.z - p.1.cartpos.z|)).map fun j => j + 1

/-- First splitting pass of `createSublayers`: scan the work list from
position `i`; a list with an interior gap larger than `eps` is removed
and its two pieces are appended at the end (the scan stays at `i`),
otherwise the scan advances. The fuel bounds the iteration count. -/
def splitGaps (eps : ℚ) : ℕ → ℕ → List (List Atom) → List (List Atom)
  | 0, _, subls => subls
  | fuel + 1, i, subls =>
    match subls.get? i with
    | none => subls
    | some li =>
      if 1 < li.length then
        match findGap eps li with
        | some j =>
          splitGaps eps fuel i ((subls.eraseIdx i) ++ [li.take j, li.drop j])
        | none => splitGaps eps fuel (i + 1) subls
      else splitGaps eps fuel (i + 1) subls

/-- The running-maximum scan for the largest interior gap
(`maxdist`/`maxdistindex`, strict `>` so the first maximum wins). -/
def maxGapGo : List ℚ → ℚ → ℕ → ℕ → ℕ
  | [], _, bi, _ => bi
  | g :: gs, best, bi, j =>
    if best < g then maxGapGo gs g j (j + 1)
    else maxGapGo gs best bi (j + 1)

/-- Index of the largest Cartesian z gap of a (z-sorted) atom list,
starting from gap index 1 as in the source. -/
def maxGapIdx (li : List Atom) : ℕ :=
  match (li.zip li.tail).map (fun p => |p.2.cartpos.z - p.1.cartpos.z|) with
  | [] => 1
  | g :: gs => maxGapGo gs g 1 2

/-- Whether a sublist's overall z span exceeds `eps`
(`abs(sublists[i][0].cartpos[2] - sublists[i][-1].cartpos[2]) > eps`). -/
def spanTooThick (eps : ℚ) (li : List Atom) : Bool :=
  match li.head?, li.getLast? with
  | some a, some b => decide (eps < |a.cartpos.z - b.cartpos.z|)
  | _, _ => false

/-- Second splitting pass of `createSublayers`: a still-too-thick list
is split at its largest interior gap and the pieces are appended at the
end; note the source's double `i += 1` when the entry at `i` has at
most one atom (the `else` branch and the trailing `if not brk` both
advance), which skips the following entry. -/
def splitThick (eps : ℚ) : ℕ → ℕ → List (List Atom) → List (List Atom)
  | 0, _, subls => subls
  | fuel + 1, i, subls =>
    match subls.get? i with
    | none => subls
    | some li =>
      if 1 < li.length then
        if spanTooThick eps li then
          splitThick eps fuel i
            ((subls.eraseIdx i) ++ [li.take (maxGapIdx li),
              li.drop (maxGapIdx li)])
        else splitThick eps fuel (i + 1) subls
      else splitThick eps fuel (i + 2) subls

/-- The per-element sublists of `createSublayers`: the element's atoms
(in z order) split at large gaps, then split where still too thick. -/
def elSublists (epsz : ℚ) (atoms : List Atom) (el : String) :
    List (List Atom) :=
  let base := atoms.filter fun a => a.el == el
  splitThick epsz (2 * base.length + 2) 0
    (splitGaps epsz (2 * base.length + 2) 0 [base])

/-- Turn one sublist into a sublayer record
(`newsl.cartbotz = ls[0].cartpos[2]` — `IndexError` on an empty
sublist). -/
def mkSublayer (ls : List Atom) : Except PyError PLayer :=
  match ls with
  | [] => .error .indexError
  | a :: _ => .ok ⟨0, false, ls, none, some a.cartpos.z⟩

/-- Build the sublayer records of all sublists. -/
def mkSublayers : List (List Atom) → Except PyError (List PLayer)
  | [] => .ok []
  | ls :: rest =>
    match mkSublayer ls with
    | .error e => .error e
    | .ok l =>
      match mkSublayers rest with
      | .error e => .error e
      | .ok ols => .ok (l :: ols)

/-- The `for el in self.elements` loop of `createSublayers`. -/
def buildSubl (epsz : ℚ) (atoms : List Atom) :
    List String → Except PyError (List PLayer)
  | [] => .ok []
  | el :: els =>
    match mkSublayers (elSublists epsz atoms el) with
    | .error e => .error e
    | .ok ls =>
      match buildSubl epsz atoms els with
      | .error e => .error e
      | .ok rest => .ok (ls ++ rest)

/-- The element key used to sort a same-height group
(`key=lambda sl: sl.atlist[0].el`; every sublayer is nonempty by
construction). -/
def subEl (l : PLayer) : String := (l.atlist.head?.map fun a => a.el).getD ""

/-- The z-grouping loop of `createSublayers`: working from the bottom
of the `-cartbotz`-sorted stack (here: front of the reversed, ascending
list), accumulate sublayers whose cached z agrees with the group
anchor within `eps`, sort each group by element, and concatenate. -/
def groupSubl (eps : ℚ) : ℕ → List PLayer → List PLayer
  | 0, _ => []
  | _, [] => []
  | fuel + 1, a :: rest =>
    let same := rest.takeWhile fun x =>
      decide (|x.cartbotz.getD 0 - a.cartbotz.getD 0| < eps)
    ((a :: same).insertionSort fun p q => subEl p ≤ subEl q)
      ++ groupSubl eps fuel (rest.drop same.length)

/-- The final `for (i, sl) in enumerate(self.sublayers): sl.num = i`. -/
def renumberSub : ℕ → List PLayer → List PLayer
  | _, [] => []
  | i, l :: rest => { l with num := i } :: renumberSub (i + 1) rest

/-- `BaseSlab.createSublayers(eps)`: z-sort the atoms, split each
element's atoms into height clusters, then merge the per-element
clusters into z-ordered, element-sorted sublayers with consecutive
numbers. -/
def createSublayers (epsz : ℚ) (s : SlabCore) : Except PyError SlabCore :=
  let s1 := sort_by_z s
  match buildSubl epsz s1.atlist s1.elements with
  | .error e => .error e
  | .ok subl =>
    let sorted := subl.insertionSort fun p q =>
      q.cartbotz.getD 0 ≤ p.cartbotz.getD 0
    .ok { s1 with
      sublayers := renumberSub 0 (groupSubl epsz sorted.length
        sorted.reverse) }

/-- `BaseSlab.getLowOccLayer`: the first sublayer of minimal atom count
(`IndexError` on `self.sublayers[0]` when there are none). -/
def getLowOccLayer (s : SlabCore) : Except PyError PLayer :=
  match s.sublayers with
  | [] => .error .indexError
  | l0 :: rest =>
    .ok (rest.foldl
      (fun best lay =>
        if lay.atlist.length < best.atlist.length then lay else best) l0)

/-- `itertools.combinations(plist, 2)`: ordered pairs with the first
component earlier in the list. -/
def combos2 {α : Type} : List α → List (α × α)
  | [] => []
  | x :: rest => (rest.map fun y => (x, y)) ++ combos2 rest

/-- The candidate filter of `getMinUnitCell`: keep the displacement
vectors under which the projected slab is translation symmetric,
propagating any raise from the test. -/
def filterTransSym (eps : ℚ) (ts : SlabCore) :
    List Vec2 → Except PyError (List Vec2)
  | [] => .ok []
  | v :: rest =>
    match isTranslationSymmetric ⟨v.x, v.y, 0⟩ eps true none ts with
    | .error e => .error e
    | .ok b =>
      match filterTransSym eps ts rest with
      | .error e => .error e
      | .ok vs => .ok (if b then v :: vs else vs)

/-- The greedy reduction loop of `getMinUnitCell` over the state
`(mincell, mincell_area, smaller)`: for each candidate, first try
replacing the second row, then the first, accepting when the new area
is below the current one by more than `eps²` and not below the hard
floor `smallest`. -/
def minCellLoop (eps smallest : ℚ) :
    List Vec2 → Mat2 × ℚ × Bool → Mat2 × ℚ × Bool
  | [], st => st
  | v :: vs, (mc, area, sm) =>
    let t1 := Mat2.ofRows mc.row0 v
    let a1 := |t1.det|
    if smallest - eps ^ 2 ≤ a1 ∧ a1 < area - eps ^ 2 then
      minCellLoop eps smallest vs (t1, a1, true)
    else
      let t2 := Mat2.ofRows mc.row1 v
      let a2 := |t2.det|
      if smallest - eps ^ 2 ≤ a2 ∧ a2 < area - eps ^ 2 then
        minCellLoop eps smallest vs (t2, a2, true)
      else minCellLoop eps smallest vs (mc, area, sm)

/-- Modelled from the spec: the Minkowski-style basis reduction
(`leedbase.reduceUnitCell`) producing a short, near-orthogonal basis
through unimodular row operations only — swap the rows when the second
is shorter, otherwise subtract the rounded projection multiple of the
first row from the second, stopping at a fixed point; the fuel bounds
the iteration count. -/
def reduceUnitCell (fuel : ℕ) (m : Mat2) : Mat2 :=
  match fuel with
  | 0 => m
  | fuel + 1 =>
    if m.row1.norm2 < m.row0.norm2 then
      reduceUnitCell fuel (Mat2.ofRows m.row1 m.row0)
    else
      let mu : ℤ := pyRound
        ((m.row0.x * m.row1.x + m.row0.y * m.row1.y) / m.row0.norm2)
      if mu = 0 then m
      else reduceUnitCell fuel
        (Mat2.ofRows m.row0 (m.row1.sub (Vec2.smul (mu : ℚ) m.row0)))

/-- Exact rational encoding of `‖r0‖ > ‖r1‖ + eps` on squared norms:
for `y ≥ 0` and `eps > 0`, `√x > √y + eps` holds iff
`x - y - eps² > 0` and `(x - y - eps²)² > 4·eps²·y`. -/
def normGt (eps x y : ℚ) : Prop :=
  y + eps ^ 2 < x ∧ 4 * eps ^ 2 * y < (x - y - eps ^ 2) ^ 2

instance (eps x y : ℚ) : Decidable (normGt eps x y) :=
  inferInstanceAs (Decidable (And _ _))

/-- First cosmetic step of `getMinUnitCell`: the rows of an
anti-diagonal-looking cell are swapped. -/
def cosSwapAnti (eps : ℚ) (m : Mat2) : Mat2 :=
  if |m.m00| < eps ∧ |m.m11| < eps then Mat2.ofRows m.row1 m.row0 else m

/-- Second cosmetic step: a diagonal-looking cell is made entrywise
positive (`mincell = abs(mincell)`). -/
def cosAbsDiag (eps : ℚ) (m : Mat2) : Mat2 :=
  if |m.m10| < eps ∧ |m.m01| < eps
  then (⟨|m.m00|, |m.m01|, |m.m10|, |m.m11|⟩ : Mat2) else m

/-- Third cosmetic step: when the first row is longer than the second
by more than `eps`, rotate with `[[0,1],[-1,0]]` unless the cell is
diagonal-looking (then only a convention warning is emitted). -/
def cosShortFirst (eps : ℚ) (m : Mat2) : Mat2 :=
  if normGt eps m.row0.norm2 m.row1.norm2 then
    (if |m.m10| < eps ∧ |m.m01| < eps then m
     else Mat2.ofRows m.row1 (Vec2.smul (-1) m.row0))
  else m

/-- Fourth cosmetic step: right-handedness by `[[1,0],[0,-1]]`. The
test `angle(mincell[0], mincell[1]) < 0` is modelled from the spec as
a negative signed area, i.e. a negative determinant. -/
def cosRightHand (m : Mat2) : Mat2 :=
  if m.det < 0 then Mat2.ofRows m.row0 (Vec2.smul (-1) m.row1) else m

/-- The cosmetic normalization at the end of `getMinUnitCell`: the four
steps applied in source order. -/
def cosmetics (eps : ℚ) (m0 : Mat2) : Mat2 :=
  cosRightHand (cosShortFirst eps (cosAbsDiag eps (cosSwapAnti eps m0)))

/-- `BaseSlab.getMinUnitCell(rp)` with the lowest-occupancy atom count
exposed as a third component: build the c-projected, re-sublayered
probe slab, return `(False, abst)` when fewer than two atoms share the
lowest-occupancy sublayer, when no pairwise displacement is translation
symmetric, or when the greedy loop never accepted a smaller cell;
otherwise reduce and normalize the found cell and return it with
`True`. -/
def getMinUnitCellCore (eps epsz : ℚ) (s : SlabCore) :
    Except PyError (Bool × Mat2 × ℕ) :=
  match s.ucell with
  | none => .error .indexError
  | some U =>
    let abst : Mat2 := ⟨U.m00, U.m10, U.m01, U.m11⟩
    match projectCToZ s with
    | .error e => .error e
    | .ok ts0 =>
      match createSublayers epsz (sort_by_z ts0) with
      | .error e => .error e
      | .ok ts =>
        match getLowOccLayer ts with
        | .error e => .error e
        | .ok lowocc =>
          let n := lowocc.atlist.length
          if n < 2 then .ok (false, abst, n)
          else
            let plist := lowocc.atlist.map fun a => a.cartpos.xy
            match filterTransSym eps ts
              ((combos2 plist).map fun pq => pq.1.sub pq.2) with
            | .error e => .error e
            | .ok tvecs =>
              if tvecs.isEmpty then .ok (false, abst, n)
              else
                let res := minCellLoop eps (|abst.det| / n) tvecs
                  (abst, |abst.det|, false)
                if res.2.2 = false then .ok (false, abst, n)
                else .ok (true, cosmetics eps (reduceUnitCell 100 res.1), n)

/-- `BaseSlab.getMinUnitCell(rp)`: the pair `(can_be_reduced, mincell)`
returned by the source. -/
def getMinUnitCell (eps epsz : ℚ) (s : SlabCore) :
    Except PyError (Bool × Mat2) :=
  match getMinUnitCellCore eps epsz s with
  | .error e => .error e
  | .ok (b, cell, _) => .ok (b, cell)

/-- Invariant of the greedy reduction loop: the cached area stays the
absolute determinant of the cell, never increases, the state is
untouched unless the `smaller` flag comes out `true`, and the final
area is above the floor unless the state is untouched. -/
theorem minCellLoop_inv (eps smallest : ℚ) :
    ∀ (vs : List Vec2) (st : Mat2 × ℚ × Bool),
      st.2.1 = |st.1.det| →
      (minCellLoop eps smallest vs st).2.1
          = |(minCellLoop eps smallest vs st).1.det| ∧
      (minCellLoop eps smallest vs st).2.1 ≤ st.2.1 ∧
      ((minCellLoop eps smallest vs st).2.2 = false →
        minCellLoop eps smallest vs st = st) ∧
      (smallest - eps ^ 2 ≤ (minCellLoop eps smallest vs st).2.1 ∨
        minCellLoop eps smallest vs st = st) := by
  intro vs
  induction vs with
  | nil =>
    intro st h
    exact ⟨h, le_refl _, fun _ => rfl, Or.inr rfl⟩
  | cons v rest ih =>
    intro st h
    obtain ⟨mc, area, sm⟩ := st
    simp only [minCellLoop]
    by_cases h1 : smallest - eps ^ 2 ≤ |(Mat2.ofRows mc.row0 v).det| ∧
        |(Mat2.ofRows mc.row0 v).det| < area - eps ^ 2
    · rw [if_pos h1]
      obtain ⟨c1, c2, c3, c4⟩ := ih (Mat2.ofRows mc.row0 v,
        |(Mat2.ofRows mc.row0 v).det|, true) rfl
      have hsq : (0:ℚ) ≤ eps ^ 2 := sq_nonneg _
      refine ⟨c1, ?_, ?_, ?_⟩
      · calc (minCellLoop eps smallest rest _).2.1
            ≤ |(Mat2.ofRows mc.row0 v).det| := c2
          _ ≤ area := by linarith [h1.2]
      · intro hf
        have := c3 hf
        rw [this] at hf
        cases hf
      · cases c4 with
        | inl hc => exact Or.inl hc
        | inr hc =>
          refine Or.inl ?_
          rw [hc]
          exact h1.1
    · rw [if_neg h1]
      by_cases h2 : smallest - eps ^ 2 ≤ |(Mat2.ofRows mc.row1 v).det| ∧
          |(Mat2.ofRows mc.row1 v).det| < area - eps ^ 2
      · rw [if_pos h2]
        obtain ⟨c1, c2, c3, c4⟩ := ih (Mat2.ofRows mc.row1 v,
          |(Mat2.ofRows mc.row1 v).det|, true) rfl
        have hsq : (0:ℚ) ≤ eps ^ 2 := sq_nonneg _
        refine ⟨c1, ?_, ?_, ?_⟩
        · calc (minCellLoop eps smallest rest _).2.1
              ≤ |(Mat2.ofRows mc.row1 v).det| := c2
            _ ≤ area := by linarith [h2.2]
        · intro hf
          have := c3 hf
          rw [this] at hf
          cases hf
        · cases c4 with
          | inl hc => exact Or.inl hc
          | inr hc =>
            refine Or.inl ?_
            rw [hc]
            exact h2.1
      · rw [if_neg h2]
        exact ih (mc, area, sm) h

/-- The modelled basis reduction only applies unimodular row
operations, so the absolute determinant is preserved. -/
theorem reduceUnitCell_det : ∀ (fuel : ℕ) (m : Mat2),
    |(reduceUnitCell fuel m).det| = |m.det| := by
  intro fuel
  induction fuel with
  | zero => intro m; rfl
  | succ fuel ih =>
    intro m
    simp only [reduceUnitCell]
    by_cases h1 : m.row1.norm2 < m.row0.norm2
    · rw [if_pos h1, ih]
      have : (Mat2.ofRows m.row1 m.row0).det = -m.det := by
        simp only [Mat2.ofRows, Mat2.det, Mat2.row0, Mat2.row1]
        ring
      rw [this, abs_neg]
    · rw [if_neg h1]
      by_cases h2 : pyRound
          ((m.row0.x * m.row1.x + m.row0.y * m.row1.y) / m.row0.norm2) = 0
      · rw [if_pos h2]
      · rw [if_neg h2, ih]
        have : (Mat2.ofRows m.row0
            (m.row1.sub (Vec2.smul (↑(pyRound ((m.row0.x * m.row1.x
              + m.row0.y * m.row1.y) / m.row0.norm2)) : ℚ)
              m.row0))).det = m.det := by
          simp only [Mat2.ofRows, Mat2.det, Mat2.row0, Mat2.row1,
            Vec2.sub, Vec2.smul]
          ring
        rw [this]

/-- Two rationals that are negatives of each other have the same
absolute value (row swaps and sign flips preserve the area). -/
theorem qabs_eq_of_neg (x y : ℚ) (h : x = -y) : |x| = |y| := by
  rw [h, abs_neg]

/-- The anti-diagonal swap preserves the area. -/
theorem cosSwapAnti_det (eps : ℚ) (m : Mat2) :
    |(cosSwapAnti eps m).det| = |m.det| := by
  unfold cosSwapAnti
  split
  · exact qabs_eq_of_neg _ _ (by
      simp only [Mat2.ofRows, Mat2.det, Mat2.row0, Mat2.row1]
      ring)
  · rfl

/-- The entrywise absolute value of a diagonal-looking cell never
increases the area. -/
theorem cosAbsDiag_det_le (eps : ℚ) (m : Mat2) :
    |(cosAbsDiag eps m).det| ≤ |m.det| := by
  unfold cosAbsDiag
  split
  · simp only [Mat2.det]
    rw [show |m.m00| * |m.m11| = |m.m00 * m.m11| from (abs_mul _ _).symm,
      show |m.m01| * |m.m10| = |m.m01 * m.m10| from (abs_mul _ _).symm]
    exact abs_abs_sub_abs_le_abs_sub _ _
  · exact le_refl _

/-- The entrywise absolute value of a diagonal-looking cell shrinks
the area by less than `2·eps²` (the off-diagonal product is below
`eps²` in absolute value). -/
theorem cosAbsDiag_det_ge (eps : ℚ) (m : Mat2) :
    |m.det| - 2 * eps ^ 2 ≤ |(cosAbsDiag eps m).det| := by
  unfold cosAbsDiag
  split
  · rename_i hsmall
    simp only [Mat2.det]
    rw [show |m.m00| * |m.m11| = |m.m00 * m.m11| from (abs_mul _ _).symm,
      show |m.m01| * |m.m10| = |m.m01 * m.m10| from (abs_mul _ _).symm]
    have heps : 0 < eps := lt_of_le_of_lt (abs_nonneg _) hsmall.1
    have hb : |m.m01 * m.m10| < eps ^ 2 := by
      rw [abs_mul]
      calc |m.m01| * |m.m10| ≤ |m.m01| * eps :=
            mul_le_mul_of_nonneg_left (le_of_lt hsmall.1) (abs_nonneg _)
        _ < eps * eps := mul_lt_mul_of_pos_right hsmall.2 heps
        _ = eps ^ 2 := (sq eps).symm
    have t1 : |m.m00 * m.m11 - m.m01 * m.m10|
        ≤ |m.m00 * m.m11| + |m.m01 * m.m10| := by
      rw [sub_eq_add_neg]
      calc |m.m00 * m.m11 + -(m.m01 * m.m10)|
          ≤ |m.m00 * m.m11| + |-(m.m01 * m.m10)| := abs_add _ _
        _ = |m.m00 * m.m11| + |m.m01 * m.m10| := by rw [abs_neg]
    have t2 : |m.m00 * m.m11| - |m.m01 * m.m10|
        ≤ |(|m.m00 * m.m11|) - (|m.m01 * m.m10|)| := le_abs_self _
    linarith
  · have : (0:ℚ) ≤ 2 * eps ^ 2 := by positivity
    linarith

/-- The shorter-first rotation preserves the area. -/
theorem cosShortFirst_det (eps : ℚ) (m : Mat2) :
    |(cosShortFirst eps m).det| = |m.det| := by
  unfold cosShortFirst
  split
  · split
    · rfl
    · have : (Mat2.ofRows m.row1 (Vec2.smul (-1) m.row0)).det = m.det := by
        simp only [Mat2.ofRows, Mat2.det, Mat2.row0, Mat2.row1, Vec2.smul]
        ring
      rw [this]
  · rfl

/-- The right-handedness flip preserves the area. -/
theorem cosRightHand_det (m : Mat2) :
    |(cosRightHand m).det| = |m.det| := by
  unfold cosRightHand
  split
  · exact qabs_eq_of_neg _ _ (by
      simp only [Mat2.ofRows, Mat2.det, Mat2.row0, Mat2.row1, Vec2.smul]
      ring)
  · rfl

/-- The cosmetic normalization never increases the cell area. -/
theorem cosmetics_det_le (eps : ℚ) (m0 : Mat2) :
    |(cosmetics eps m0).det| ≤ |m0.det| := by
  unfold cosmetics
  rw [cosRightHand_det, cosShortFirst_det]
  calc |(cosAbsDiag eps (cosSwapAnti eps m0)).det|
      ≤ |(cosSwapAnti eps m0).det| := cosAbsDiag_det_le _ _
    _ = |m0.det| := cosSwapAnti_det _ _

/-- The cosmetic normalization shrinks the cell area by less than
`2·eps²`. -/
theorem cosmetics_det_ge (eps : ℚ) (m0 : Mat2) :
    |m0.det| - 2 * eps ^ 2 ≤ |(cosmetics eps m0).det| := by
  unfold cosmetics
  rw [cosRightHand_det, cosShortFirst_det]
  calc |m0.det| - 2 * eps ^ 2
      = |(cosSwapAnti eps m0).det| - 2 * eps ^ 2 := by
        rw [cosSwapAnti_det]
    _ ≤ |(cosAbsDiag eps (cosSwapAnti eps m0)).det| := cosAbsDiag_det_ge _ _

/-- Membership in a `takeWhile` selection is membership in the list. -/
theorem mem_of_mem_takeWhile {α : Type} (p : α → Bool) :
    ∀ (l : List α) (a : α), a ∈ l.takeWhile p → a ∈ l := by
  intro l
  induction l with
  | nil => intro a h; simp [List.takeWhile] at h
  | cons x xs ih =>
    intro a h
    simp only [List.takeWhile_cons] at h
    by_cases hx : p x = true
    · rw [if_pos hx] at h
      rcases List.mem_cons.mp h with rfl | h2
      · exact List.mem_cons_self _ _
      · exact List.mem_cons_of_mem _ (ih a h2)
    · rw [if_neg hx] at h
      cases h

/-- Every sublayer record built by `mkSublayers` has atoms (an empty
sublist raises instead). -/
theorem mkSublayers_ne :
    ∀ (lss : List (List Atom)) (ls : List PLayer),
      mkSublayers lss = .ok ls → ∀ l ∈ ls, l.atlist ≠ [] := by
  intro lss
  induction lss with
  | nil =>
    intro ls h l hl
    simp only [mkSublayers] at h
    injection h with h2
    rw [← h2] at hl
    cases hl
  | cons l0 rest ih =>
    intro ls h l hl
    simp only [mkSublayers] at h
    cases h0 : mkSublayer l0 with
    | error e => rw [h0] at h; cases h
    | ok lay =>
      rw [h0] at h
      dsimp only at h
      cases hr : mkSublayers rest with
      | error e => rw [hr] at h; cases h
      | ok ols =>
        rw [hr] at h
        dsimp only at h
        injection h with h2
        rw [← h2] at hl
        rcases List.mem_cons.mp hl with rfl | h3
        · cases l0 with
          | nil => cases h0
          | cons a tl =>
            simp only [mkSublayer] at h0
            injection h0 with h4
            rw [← h4]
            exact List.cons_ne_nil _ _
        · exact ih ols hr l h3

/-- Every sublayer produced by the per-element loop has atoms. -/
theorem buildSubl_ne (epsz : ℚ) (atoms : List Atom) :
    ∀ (els : List String) (subl : List PLayer),
      buildSubl epsz atoms els = .ok subl → ∀ l ∈ subl, l.atlist ≠ [] := by
  intro els
  induction els with
  | nil =>
    intro subl h l hl
    simp only [buildSubl] at h
    injection h with h2
    rw [← h2] at hl
    cases hl
  | cons el rest ih =>
    intro subl h l hl
    simp only [buildSubl] at h
    cases h0 : mkSublayers (elSublists epsz atoms el) with
    | error e => rw [h0] at h; cases h
    | ok ls =>
      rw [h0] at h
      dsimp only at h
      cases hr : buildSubl epsz atoms rest with
      | error e => rw [hr] at h; cases h
      | ok more =>
        rw [hr] at h
        dsimp only at h
        injection h with h2
        rw [← h2] at hl
        rcases List.mem_append.mp hl with h3 | h3
        · exact mkSublayers_ne _ ls h0 l h3
        · exact ih more hr l h3

/-- The z-grouping only reorders the sublayer records. -/
theorem groupSubl_mem (eps : ℚ) :
    ∀ (fuel : ℕ) (ls : List PLayer), ∀ l ∈ groupSubl eps fuel ls,
      l ∈ ls := by
  intro fuel
  induction fuel with
  | zero =>
    intro ls l hl
    simp only [groupSubl] at hl
    cases hl
  | succ fuel ih =>
    intro ls l hl
    cases ls with
    | nil => simp only [groupSubl] at hl; cases hl
    | cons a rest =>
      simp only [groupSubl] at hl
      rcases List.mem_append.mp hl with h | h
      · have h2 := (List.perm_insertionSort
          (fun p q => subEl p ≤ subEl q) _).mem_iff.mp h
        rcases List.mem_cons.mp h2 with rfl | h3
        · exact List.mem_cons_self _ _
        · exact List.mem_cons_of_mem _ (mem_of_mem_takeWhile _ rest l h3)
      · exact List.mem_cons_of_mem _ (List.drop_subset _ _ (ih _ l h))

/-- Renumbering keeps each sublayer's atom list. -/
theorem renumberSub_atl :
    ∀ (ls : List PLayer) (i : ℕ) (l : PLayer), l ∈ renumberSub i ls →
      ∃ l0 ∈ ls, l.atlist = l0.atlist := by
  intro ls
  induction ls with
  | nil => intro i l hl; simp only [renumberSub] at hl; cases hl
  | cons x xs ih =>
    intro i l hl
    simp only [renumberSub] at hl
    rcases List.mem_cons.mp hl with rfl | h2
    · exact ⟨x, List.mem_cons_self _ _, rfl⟩
    · obtain ⟨l0, hl0, he⟩ := ih (i + 1) l h2
      exact ⟨l0, List.mem_cons_of_mem _ hl0, he⟩

/-- Every sublayer of a successfully re-sublayered slab has atoms. -/
theorem createSublayers_ne (epsz : ℚ) (s s2 : SlabCore)
    (h : createSublayers epsz s = .ok s2) :
    ∀ l ∈ s2.sublayers, l.atlist ≠ [] := by
  simp only [createSublayers] at h
  cases hb : buildSubl epsz (sort_by_z s).atlist (sort_by_z s).elements with
  | error e => rw [hb] at h; cases h
  | ok subl =>
    rw [hb] at h
    dsimp only at h
    injection h with h2
    intro l hl
    rw [← h2] at hl
    dsimp only at hl
    obtain ⟨l0, hl0, he⟩ := renumberSub_atl _ 0 l hl
    have h3 := groupSubl_mem epsz _ _ l0 hl0
    rw [List.mem_reverse] at h3
    have h4 := (List.perm_insertionSort
      (fun p q => q.cartbotz.getD 0 ≤ p.cartbotz.getD 0) subl).mem_iff.mp h3
    rw [he]
    exact buildSubl_ne epsz _ _ subl hb l0 h4

/-- The running-minimum fold of `getLowOccLayer` returns its seed or a
member of the list. -/
theorem lowOccPick_mem :
    ∀ (rest : List PLayer) (b : PLayer),
      rest.foldl (fun best lay =>
        if lay.atlist.length < best.atlist.length then lay else best) b = b
      ∨ rest.foldl (fun best lay =>
        if lay.atlist.length < best.atlist.length then lay else best) b
          ∈ rest := by
  intro rest
  induction rest with
  | nil => intro b; exact Or.inl rfl
  | cons r rs ih =>
    intro b
    simp only [List.foldl_cons]
    rcases ih (if r.atlist.length < b.atlist.length then r else b) with
      h | h
    · rw [h]
      by_cases hc : r.atlist.length < b.atlist.length
      · rw [if_pos hc]
        exact Or.inr (List.mem_cons_self _ _)
      · rw [if_neg hc]
        exact Or.inl rfl
    · exact Or.inr (List.mem_cons_of_mem _ h)

/-- The lowest-occupancy sublayer is one of the slab's sublayers. -/
theorem getLowOccLayer_mem (s : SlabCore) (low : PLayer)
    (h : getLowOccLayer s = .ok low) : low ∈ s.sublayers := by
  cases hs : s.sublayers with
  | nil => simp only [getLowOccLayer, hs] at h; cases h
  | cons l0 rest =>
    simp only [getLowOccLayer, hs] at h
    injection h with h2
    rcases lowOccPick_mem rest l0 with heq | hm
    · rw [h2] at heq
      rw [heq]
      exact List.mem_cons_self _ _
    · rw [h2] at hm
      exact List.mem_cons_of_mem _ hm

set_option maxHeartbeats 1000000 in
/-- Claim C5: whenever `getMinUnitCell` returns, the returned cell's
area never exceeds the input cell's; the returned area times the
number of atoms in the lowest-occupancy sublayer is at least the
original area minus the tolerance `3·n·eps²` (floor law); and whenever
the cell cannot be reduced — fewer than two atoms in the
lowest-occupancy sublayer, no symmetric translation candidate, or no
accepted replacement — the result is `(false, abst)` with `abst` the
transposed in-plane block of the original cell. -/
theorem getMinUnitCell_spec (eps epsz : ℚ) (s : SlabCore) (U : Mat3)
    (red : Bool) (cell : Mat2) (n : ℕ)
    (hU : s.ucell = some U)
    (hok : getMinUnitCellCore eps epsz s = .ok (red, cell, n)) :
    getMinUnitCell eps epsz s = .ok (red, cell) ∧
    |cell.det| ≤ |(⟨U.m00, U.m10, U.m01, U.m11⟩ : Mat2).det| ∧
    |(⟨U.m00, U.m10, U.m01, U.m11⟩ : Mat2).det| - 3 * n * eps ^ 2
        ≤ n * |cell.det| ∧
    (red = false → cell = (⟨U.m00, U.m10, U.m01, U.m11⟩ : Mat2)) := by
  have hwrap : getMinUnitCell eps epsz s = .ok (red, cell) := by
    simp only [getMinUnitCell, hok]
  refine ⟨hwrap, ?_⟩
  simp only [getMinUnitCellCore, hU] at hok
  cases hp : projectCToZ s with
  | error e => rw [hp] at hok; cases hok
  | ok ts0 =>
    rw [hp] at hok
    dsimp only at hok
    cases hcs : createSublayers epsz (sort_by_z ts0) with
    | error e => rw [hcs] at hok; cases hok
    | ok ts =>
      rw [hcs] at hok
      dsimp only at hok
      cases hlo : getLowOccLayer ts with
      | error e => rw [hlo] at hok; cases hok
      | ok lowocc =>
        rw [hlo] at hok
        dsimp only at hok
        have hn1 : 1 ≤ lowocc.atlist.length := by
          have hne := createSublayers_ne epsz (sort_by_z ts0) ts hcs lowocc
            (getLowOccLayer_mem ts lowocc hlo)
          cases hl : lowocc.atlist with
          | nil => exact absurd hl hne
          | cons a tl => simp [hl]
        have hfalseCase :
            (Except.ok (false, (⟨U.m00, U.m10, U.m01, U.m11⟩ : Mat2),
                lowocc.atlist.length) :
              Except PyError (Bool × Mat2 × ℕ)) = .ok (red, cell, n) →
            |cell.det| ≤ |(⟨U.m00, U.m10, U.m01, U.m11⟩ : Mat2).det| ∧
            |(⟨U.m00, U.m10, U.m01, U.m11⟩ : Mat2).det|
                - 3 * n * eps ^ 2 ≤ n * |cell.det| ∧
            (red = false →
              cell = (⟨U.m00, U.m10, U.m01, U.m11⟩ : Mat2)) := by
          intro hokf
          simp only [Except.ok.injEq, Prod.mk.injEq] at hokf
          obtain ⟨hred, hcell, hcount⟩ := hokf
          subst hred
          subst hcell
          subst hcount
          refine ⟨le_refl _, ?_, fun _ => rfl⟩
          have h0 : (0:ℚ)
              ≤ |(⟨U.m00, U.m10, U.m01, U.m11⟩ : Mat2).det| := abs_nonneg _
          have hq : (1:ℚ) ≤ (lowocc.atlist.length : ℚ) := by
            exact_mod_cast hn1
          nlinarith [sq_nonneg eps]
        by_cases hn : lowocc.atlist.length < 2
        · rw [if_pos hn] at hok
          exact hfalseCase hok
        · rw [if_neg hn] at hok
          cases hf : filterTransSym eps ts
              ((combos2 (lowocc.atlist.map fun a => a.cartpos.xy)).map
                fun pq => pq.1.sub pq.2) with
          | error e => rw [hf] at hok; cases hok
          | ok tvecs =>
            rw [hf] at hok
            dsimp only at hok
            cases hemp : tvecs.isEmpty with
            | true =>
              rw [hemp, if_pos rfl] at hok
              exact hfalseCase hok
            | false =>
              rw [hemp, if_neg Bool.false_ne_true] at hok
              by_cases hsm : (minCellLoop eps
                  (|(⟨U.m00, U.m10, U.m01, U.m11⟩ : Mat2).det|
                    / (lowocc.atlist.length : ℚ)) tvecs
                  ((⟨U.m00, U.m10, U.m01, U.m11⟩ : Mat2),
                    |(⟨U.m00, U.m10, U.m01, U.m11⟩ : Mat2).det|,
                    false)).2.2 = false
              · rw [if_pos hsm] at hok
                exact hfalseCase hok
              · rw [if_neg hsm] at hok
                simp only [Except.ok.injEq, Prod.mk.injEq] at hok
                obtain ⟨hred, hcell, hcount⟩ := hok
                subst hred
                subst hcell
                subst hcount
                obtain ⟨i1, i2, i3, i4⟩ := minCellLoop_inv eps
                  (|(⟨U.m00, U.m10, U.m01, U.m11⟩ : Mat2).det|
                    / (lowocc.atlist.length : ℚ)) tvecs
                  ((⟨U.m00, U.m10, U.m01, U.m11⟩ : Mat2),
                    |(⟨U.m00, U.m10, U.m01, U.m11⟩ : Mat2).det|,
                    false) rfl
                have hfl : |(⟨U.m00, U.m10, U.m01, U.m11⟩ : Mat2).det|
                    / (lowocc.atlist.length : ℚ) - eps ^ 2
                    ≤ (minCellLoop eps
                      (|(⟨U.m00, U.m10, U.m01, U.m11⟩ : Mat2).det|
                        / (lowocc.atlist.length : ℚ)) tvecs
                      ((⟨U.m00, U.m10, U.m01, U.m11⟩ : Mat2),
                        |(⟨U.m00, U.m10, U.m01, U.m11⟩ : Mat2).det|,
                        false)).2.1 := by
                  rcases i4 with h | h
                  · exact h
                  · exact absurd (by rw [h]) hsm
                have hup : |(cosmetics eps (reduceUnitCell 100
                    (minCellLoop eps
                      (|(⟨U.m00, U.m10, U.m01, U.m11⟩ : Mat2).det|
                        / (lowocc.atlist.length : ℚ)) tvecs
                      ((⟨U.m00, U.m10, U.m01, U.m11⟩ : Mat2),
                        |(⟨U.m00, U.m10, U.m01, U.m11⟩ : Mat2).det|,
                        false)).1)).det|
                    ≤ |(⟨U.m00, U.m10, U.m01, U.m11⟩ : Mat2).det| := by
                  calc |(cosmetics eps (reduceUnitCell 100 _)).det|
                      ≤ |(reduceUnitCell 100 _).det| := cosmetics_det_le _ _
                    _ = _ := reduceUnitCell_det _ _
                    _ = _ := i1.symm
                    _ ≤ _ := i2
                have hdown : (minCellLoop eps
                      (|(⟨U.m00, U.m10, U.m01, U.m11⟩ : Mat2).det|
                        / (lowocc.atlist.length : ℚ)) tvecs
                      ((⟨U.m00, U.m10, U.m01, U.m11⟩ : Mat2),
                        |(⟨U.m00, U.m10, U.m01, U.m11⟩ : Mat2).det|,
                        false)).2.1 - 2 * eps ^ 2
                    ≤ |(cosmetics eps (reduceUnitCell 100
                      (minCellLoop eps
                        (|(⟨U.m00, U.m10, U.m01, U.m11⟩ : Mat2).det|
                          / (lowocc.atlist.length : ℚ)) tvecs
                        ((⟨U.m00, U.m10, U.m01, U.m11⟩ : Mat2),
                          |(⟨U.m00, U.m10, U.m01, U.m11⟩ : Mat2).det|,
                          false)).1)).det| := by
                  calc _ = |(minCellLoop eps _ tvecs _).1.det| - 2 * eps ^ 2
                        := by rw [i1]
                    _ = |(reduceUnitCell 100
                        (minCellLoop eps _ tvecs _).1).det| - 2 * eps ^ 2
                        := by rw [reduceUnitCell_det]
                    _ ≤ _ := cosmetics_det_ge _ _
                have hlq : (2:ℚ) ≤ (lowocc.atlist.length : ℚ) := by
                  exact_mod_cast not_lt.mp hn
                have hpos : (0:ℚ) < (lowocc.atlist.length : ℚ) := by
                  linarith
                have hdiv : (lowocc.atlist.length : ℚ)
                    * (|(⟨U.m00, U.m10, U.m01, U.m11⟩ : Mat2).det|
                      / (lowocc.atlist.length : ℚ))
                    = |(⟨U.m00, U.m10, U.m01, U.m11⟩ : Mat2).det| := by
                  field_simp
                refine ⟨hup, ?_, fun h => Bool.noConfusion h⟩
                nlinarith [hfl, hdown, hdiv, hpos, hup]

/-- A one-atom slab with the identity unit cell: its lowest-occupancy
sublayer has a single atom, so the cell cannot be reduced. -/
def minCellSlab : SlabCore :=
  { ucell := some ⟨1, 0, 0, 0, 1, 0, 0, 0, 1⟩,
    atlist := [⟨"A", 1, ⟨0, 0, 1/2⟩, ⟨0, 0, 1/2⟩⟩],
    layers := [], sublayers := [], topat_ori_z := some 0,
    elements := ["A"], layers_initialized := false }

set_option maxRecDepth 10000 in
/-- Claim C5 (witness): the minimal-cell theorem evaluated on the
one-atom slab — the reduction reports `(false, abst)` and the area
bounds hold at `n = 1`. -/
theorem getMinUnitCell_spec_witness :
    minCellSlab.ucell = some ⟨1, 0, 0, 0, 1, 0, 0, 0, 1⟩ ∧
    getMinUnitCellCore (1/10) (1/100) minCellSlab
        = .ok (false, (⟨1, 0, 0, 1⟩ : Mat2), 1) ∧
    (getMinUnitCell (1/10) (1/100) minCellSlab
        = .ok (false, (⟨1, 0, 0, 1⟩ : Mat2)) ∧
      |(⟨1, 0, 0, 1⟩ : Mat2).det| ≤ |(⟨1, 0, 0, 1⟩ : Mat2).det| ∧
      |(⟨1, 0, 0, 1⟩ : Mat2).det| - 3 * ((1 : ℕ) : ℚ) * (1/10 : ℚ) ^ 2
          ≤ ((1 : ℕ) : ℚ) * |(⟨1, 0, 0, 1⟩ : Mat2).det| ∧
      (false = false → (⟨1, 0, 0, 1⟩ : Mat2) = ⟨1, 0, 0, 1⟩)) := by
  have hok : getMinUnitCellCore (1/10) (1/100) minCellSlab
      = .ok (false, (⟨1, 0, 0, 1⟩ : Mat2), 1) := by
    norm_num [getMinUnitCellCore, minCellSlab, projectCToZ,
      createSublayers, sort_by_z, zsort, buildSubl, elSublists,
      splitGaps, splitThick, mkSublayers, mkSublayer, groupSubl,
      renumberSub, subEl, getLowOccLayer, findGap,
      List.insertionSort, List.orderedInsert]
  exact ⟨rfl, hok, getMinUnitCell_spec (1/10) (1/100) minCellSlab
    ⟨1, 0, 0, 0, 1, 0, 0, 0, 1⟩ false ⟨1, 0, 0, 1⟩ 1 rfl hok⟩

end VarLeed
